import Mathlib

/-!
Verification development for the CodDocAgent repository (`repo_agent` package).

The definitions below are shallow embeddings of the Python source:

* `repo_agent/multi_task_dispatch.py` — `Task`, `TaskManager`, `worker`;
* `repo_agent/doc_meta_info.py` — `find_all_referencer`, `DocItem.has_ans_relation`,
  `MetaInfo.find_obj_with_lineno`, the inner loop of `MetaInfo.parse_reference`,
  `MetaInfo.get_task_manager`'s selection loop, `MetaInfo.load_doc_from_older_meta`
  (`travel` / `travel2`), `MetaInfo.from_project_hierarchy_json`'s father
  attachment, `need_to_generate`;
* `repo_agent/runner.py` — `Runner.generate_doc_for_a_single_item`.

Python `dict`s (insertion ordered, unique keys) are modelled as ordered
association lists; machine-level line numbers are `Int` (the source uses the
sentinel `-1`); calls into external libraries (jedi, the LLM chat engine, the
file system) are modelled as oracle parameters supplying their results.
-/

namespace CodDoc

/-! ## multi_task_dispatch.py

`Task.dependencies` in the source is a list of `Task` objects fetched from
`task_dict`; since `now_id` increments on every `add_task`, task ids uniquely
identify task objects, so dependencies are represented by their ids.
`extra_info` (the scheduled `DocItem` payload) is represented by a numeric
entity id. -/

structure Task where
  task_id : Nat
  dependencies : List Nat
  status : Nat
  extra_info : Nat
deriving Repr, DecidableEq

/-- The `task_dict : Dict[int, Task]` insertion-ordered map, plus `now_id` and
`query_id`, exactly the fields set in `TaskManager.__init__`. -/
structure TaskManager where
  task_dict : List (Nat × Task)
  now_id : Nat
  query_id : Nat
deriving Repr, DecidableEq

def TaskManager.initial : TaskManager := ⟨[], 0, 0⟩

def TaskManager.keys (m : TaskManager) : List Nat := m.task_dict.map Prod.fst

/-- The `all_success` property: `len(self.task_dict) == 0`. -/
def TaskManager.all_success (m : TaskManager) : Bool := m.task_dict.isEmpty

/-- The `add_task`: stores `Task(task_id=now_id, dependencies=..., extra_info=extra)`
under key `now_id`, increments `now_id`, returns the id used.  The source
materialises `dependencies` as the list `[task_dict[i] for i in dependency_task_id]`;
we keep the ids themselves (see the comment on `Task`). -/
def TaskManager.add_task (m : TaskManager) (dependency_task_id : List Nat)
    (extra : Nat) : TaskManager × Nat :=
  (⟨m.task_dict ++ [(m.now_id, ⟨m.now_id, dependency_task_id, 0, extra⟩)],
    m.now_id + 1, m.query_id⟩, m.now_id)

/-- The readiness test of `get_next_task`:
`len(dependencies) == 0 and status == 0`. -/
def taskReady (p : Nat × Task) : Bool :=
  p.2.dependencies.isEmpty && p.2.status == 0

/-- The `get_next_task`: increments `query_id`, scans `task_dict` in insertion
order for the first ready task, sets its `status` to `1`, and returns
`(task, task_id)`; otherwise returns `(None, -1)` (modelled as `none`). -/
def TaskManager.get_next_task (m : TaskManager) :
    Option (Task × Nat) × TaskManager :=
  match m.task_dict.find? taskReady with
  | some (task_id, t) =>
      let t1 : Task := ⟨t.task_id, t.dependencies, 1, t.extra_info⟩
      (some (t1, task_id),
       ⟨m.task_dict.map (fun p => if p.1 = task_id then (p.1, t1) else p),
        m.now_id, m.query_id + 1⟩)
  | none => (none, ⟨m.task_dict, m.now_id, m.query_id + 1⟩)

/-- The `mark_completed`: for every task in the map, remove the completed task
from its `dependencies` (Python `list.remove`, guarded by `in`, deletes the
first occurrence — `List.erase`), then `pop` the completed task's entry. -/
def TaskManager.mark_completed (m : TaskManager) (task_id : Nat) : TaskManager :=
  ⟨((m.task_dict.map
      (fun p => (p.1, Task.mk p.2.task_id (p.2.dependencies.erase task_id)
                  p.2.status p.2.extra_info))).filter
      (fun p => p.1 != task_id)),
   m.now_id, m.query_id⟩

/-- The `worker` loop.  `σ` is the state mutated by the handler
(`generate_doc_for_a_single_item` mutates the entity store); the handler is
applied to `task.extra_info` and the task is then marked completed.  The
source loops until `all_success`; `fuel` bounds the number of iterations
(a `None` answer makes the source `time.sleep(0.5)` and retry). -/
def worker {σ : Type} (handler : σ → Nat → σ) :
    Nat → TaskManager → σ → TaskManager × σ
  | 0, m, s => (m, s)
  | fuel + 1, m, s =>
    if m.all_success then (m, s)
    else
      match m.get_next_task with
      | (some (t, _), m1) =>
          worker handler fuel (m1.mark_completed t.task_id) (handler s t.extra_info)
      | (none, m1) => worker handler fuel m1 s

/-! ### Execution traces over a `TaskManager`

The three public mutating operations of `TaskManager`.  A trace is a list of
operations applied in order, starting from a freshly constructed manager.
The Python code raises `KeyError` when `add_task` receives an unknown
dependency id or `mark_completed` an unknown task id; `wfFrom` captures the
traces on which the source runs without such an exception (dependency ids are
additionally duplicate-free, which the only caller, `get_task_manager`,
guarantees via `list(set(...))`). -/

inductive TMOp where
  | add (deps : List Nat) (extra : Nat)
  | next
  | complete (id : Nat)
deriving Repr, DecidableEq

def applyOp (m : TaskManager) : TMOp → TaskManager
  | .add deps e => (m.add_task deps e).1
  | .next => (m.get_next_task).2
  | .complete id => m.mark_completed id

def runFrom (m : TaskManager) (ops : List TMOp) : TaskManager :=
  ops.foldl applyOp m

def opOK (m : TaskManager) : TMOp → Bool
  | .add deps _ => decide deps.Nodup && deps.all (fun d => m.keys.contains d)
  | .next => true
  | .complete id => m.keys.contains id

def wfFrom (m : TaskManager) : List TMOp → Bool
  | [] => true
  | op :: rest => opOK m op && wfFrom (applyOp m op) rest

/-- The dependency lists passed to the successive `add_task` calls of a trace;
since `now_id` starts at 0 and increments once per `add_task`, the task with
id `i` was created by the `i`-th `add` operation. -/
def addsIn (ops : List TMOp) : List (List Nat) :=
  ops.filterMap (fun op => match op with | .add deps _ => some deps | _ => none)

/-- The task ids passed to the successive `mark_completed` calls of a trace. -/
def completedIn (ops : List TMOp) : List Nat :=
  ops.filterMap (fun op => match op with | .complete id => some id | _ => none)

/-- State invariant tying a reachable `TaskManager` to its history: every live
task stores its own key as `task_id`, and its current dependency list is its
original dependency list minus everything already completed. -/
def TMInv (m : TaskManager) (adds : List (List Nat)) (completed : List Nat) : Prop :=
  m.now_id = adds.length ∧
  (∀ c ∈ completed, c < m.now_id ∧ c ∉ m.keys) ∧
  (∀ p ∈ m.task_dict, p.2.task_id = p.1 ∧
    ∃ D, adds[p.1]? = some D ∧ D.Nodup ∧
      p.2.dependencies = D.filter (fun d => decide (d ∉ completed)))

/-- Concrete run exercising `c1_never_dispatched_before_dependencies_completed`:
two tasks are added (task 1 depending on task 0), task 0 is completed, and
then task 1 is dispatched; its one recorded dependency, 0, was completed
earlier in the trace. -/
def c1ops : List TMOp := [.add [] 5, .add [0] 7, .complete 0]

/-! ### Interleaved execution of `get_next_task`

`TaskManager` acquires no lock anywhere (the only lock in the code base,
`MetaInfo.checkpoint_lock`, guards checkpoint file writes in
`doc_meta_info.py`).  To analyse two workers running `get_next_task`
concurrently we split its loop body at the source's statement boundary: the
readiness test `ready = (len(...) == 0) and status == 0` (lines 39-41) is one
step, and the `if ready:` branch that sets `status = 1` and returns the task
(lines 43-47) is another.  A thread switch may occur between them.  The steps
below transcribe those two statements for the task currently scanned, which
for a single-task map is the whole loop. -/

inductive WorkerPC where
  | start
  | tested (ready : Bool)
  | got (id : Nat)
deriving Repr, DecidableEq

/-- Lines 39-41: evaluate `ready` for the scanned (first) task. -/
def testStep (m : TaskManager) : Bool :=
  match m.task_dict with
  | [] => false
  | p :: _ => taskReady p

/-- Lines 43-47: mark the scanned (first) task in-flight and return its id. -/
def markStep (m : TaskManager) : TaskManager × Nat :=
  match m.task_dict with
  | [] => (m, 0)
  | (k, t) :: rest =>
      (⟨(k, ⟨t.task_id, t.dependencies, 1, t.extra_info⟩) :: rest,
        m.now_id, m.query_id⟩, k)

/-- One micro-step of a worker inside `get_next_task`, over the shared map. -/
def workerMicroStep : TaskManager × WorkerPC → TaskManager × WorkerPC
  | (m, .start) => (m, .tested (testStep m))
  | (m, .tested true) => ((markStep m).1, .got (markStep m).2)
  | (m, .tested false) => (m, .tested false)
  | (m, .got k) => (m, .got k)

structure TwoWorkers where
  mgr : TaskManager
  wA : WorkerPC
  wB : WorkerPC
deriving Repr, DecidableEq

def stepA (c : TwoWorkers) : TwoWorkers :=
  ⟨(workerMicroStep (c.mgr, c.wA)).1, (workerMicroStep (c.mgr, c.wA)).2, c.wB⟩

def stepB (c : TwoWorkers) : TwoWorkers :=
  ⟨(workerMicroStep (c.mgr, c.wB)).1, c.wA, (workerMicroStep (c.mgr, c.wB)).2⟩

/-- A manager holding one ready pending task (id 0, no dependencies). -/
def c2start : TwoWorkers :=
  ⟨⟨[(0, ⟨0, [], 0, 9⟩)], 1, 0⟩, .start, .start⟩

/-! ### Single-threaded dispatch drains the task set

`Runner.first_generate` and `Runner.run` call `worker(task_manager, ...)`
directly (one thread).  `get_task_manager` only ever registers dependencies on
previously added tasks (smaller ids) and deduplicates them, captured by
`WFdict`. -/

def WFdict (m : TaskManager) : Prop :=
  ∀ p ∈ m.task_dict, p.2.task_id = p.1 ∧ p.2.status = 0 ∧
    p.2.dependencies.Nodup ∧
    ∀ d ∈ p.2.dependencies, d ∈ m.keys ∧ d < p.1

/-! ## doc_meta_info.py: status and kind enums -/

inductive DocItemType where
  | _repo
  | _dir
  | _file
  | _class
  | _class_function
  | _function
  | _sub_function
  | _global_var
deriving Repr, DecidableEq

inductive DocItemStatus where
  | doc_up_to_date
  | doc_has_not_been_generated
  | code_changed
  | add_new_referencer
  | referencer_not_exist
deriving Repr, DecidableEq

/-! ## need_to_generate (doc_meta_info.py lines 82-102) and
`Runner.generate_doc_for_a_single_item` (runner.py lines 81-103) -/

/-- Static data of one entity consumed by `need_to_generate`: its kind, its
`get_full_name()` result, and the kinds of its ancestors listed nearest
father first — the order in which the `while doc_item:` loop follows
`doc_item.father` upward. -/
structure NtgItem where
  item_type : DocItemType
  full_name : String
  father_types : List DocItemType
deriving Repr, DecidableEq

/-- The `while doc_item:` loop of `need_to_generate`: walk fathers upward;
at the first `_file` ancestor, return `False` if any entry of `ignore_list`
is a prefix of `rel_file_path`, else `True`; falling off the chain returns
`False`. -/
def ntgWalk (ignore_list : List String) (rel_file_path : String) :
    List DocItemType → Bool
  | [] => false
  | t :: rest =>
    if t = DocItemType._file then
      if ignore_list.any (fun ig => rel_file_path.startsWith ig) then false
      else true
    else ntgWalk ignore_list rel_file_path rest

/-- The `need_to_generate`: `doc_up_to_date` and file/dir/repo entities are
excluded outright, everything else is decided by the father walk. -/
def need_to_generate (item : NtgItem) (status : DocItemStatus)
    (ignore_list : List String) : Bool :=
  if status = DocItemStatus.doc_up_to_date then false
  else if item.item_type = DocItemType._file ∨
          item.item_type = DocItemType._dir ∨
          item.item_type = DocItemType._repo then false
  else ntgWalk ignore_list item.full_name item.father_types

/-- The `Runner.generate_doc_for_a_single_item`.  Entity state is
`(item_status, md_content)` per entity id; `gen` is the external
`chat_engine.generate_doc` oracle (`.error` models a raised exception, the
only exception source considered).  On success the response is appended to
`md_content` and the status becomes `doc_up_to_date` (the subsequent
`meta_info.checkpoint` call only performs file I/O); the surrounding
`try`/`except Exception` turns a raised exception into
`item_status = doc_has_not_been_generated` with no append and no
re-raise. -/
def generate_doc_for_a_single_item
    (items : Nat → NtgItem) (gen : Nat → Except Unit String)
    (ignore_list : List String)
    (s : Nat → DocItemStatus × List String) (docId : Nat) :
    Nat → DocItemStatus × List String :=
  if !(need_to_generate (items docId) (s docId).1 ignore_list) then s
  else
    match gen docId with
    | .ok response_message =>
        Function.update s docId
          (DocItemStatus.doc_up_to_date, (s docId).2 ++ [response_message])
    | .error _ =>
        Function.update s docId
          (DocItemStatus.doc_has_not_been_generated, (s docId).2)

def c9items : Nat → NtgItem :=
  fun _ => ⟨DocItemType._function, "a.py/f", [DocItemType._file, DocItemType._repo]⟩

def c9gen : Nat → Except Unit String := fun _ => .error ()

def c9state : Nat → DocItemStatus × List String :=
  fun _ => (DocItemStatus.code_changed, [])

def c9mgr : TaskManager := ⟨[(0, ⟨0, [], 0, 0⟩)], 1, 0⟩

/-! ## The selection loop of `MetaInfo.get_task_manager`
(doc_meta_info.py lines 585-618)

Entities are addressed by ids in an arena `A : Nat → SchedItem`;
`avail` is `task_available_func`, `deal_items` the already selected pool. -/

structure SchedItem where
  children : List Nat
  reference_who : List Nat
  special_reference_type : List Bool
deriving Repr, DecidableEq

/-- The `best_break_level` of one item: available-and-not-dealt children plus
available-and-not-dealt referenced entities, weak (`special`) edges
included. -/
def best_break_level (A : Nat → SchedItem) (avail : Nat → Bool)
    (deal_items : List Nat) (i : Nat) : Nat :=
  ((A i).children.filter (fun c => avail c && !(deal_items.contains c))).length
  + (((A i).reference_who.zip (A i).special_reference_type).filter
      (fun rs => avail rs.1 && !(deal_items.contains rs.1))).length

/-- The `second_best_break_level`: available, not-dealt referenced entities whose
edge is not `special` (weak); children do not contribute here. -/
def second_best_break_level (A : Nat → SchedItem) (avail : Nat → Bool)
    (deal_items : List Nat) (i : Nat) : Nat :=
  (((A i).reference_who.zip (A i).special_reference_type).filter
      (fun rs => avail rs.1 && !rs.2 && !(deal_items.contains rs.1))).length

/-- One round of the `while doc_items:` loop (its inner `for item in
doc_items:`): scan in order with accumulator `(min_break_level,
target_item)`, initially `(10000000, none)`; an item whose
`best_break_level` is `0` is taken at once (`min_break_level = -1`,
`break`); otherwise an item strictly improving `second_best_break_level`
becomes the target.  The source then prints the circle-reference warning
exactly when the returned `min_break_level` is positive. -/
def selectRound (A : Nat → SchedItem) (avail : Nat → Bool)
    (deal_items : List Nat) :
    List Nat → Int × Option Nat → Int × Option Nat
  | [], acc => acc
  | i :: rest, (min_break_level, target_item) =>
    if best_break_level A avail deal_items i = 0 then (-1, some i)
    else if (second_best_break_level A avail deal_items i : Int)
        < min_break_level then
      selectRound A avail deal_items rest
        ((second_best_break_level A avail deal_items i : Int), some i)
    else selectRound A avail deal_items rest (min_break_level, target_item)

/-- Strong blockers in the words of the claim: pending (available, not
dealt) children plus pending referenced entities whose edge is not weak. -/
def strongBlockers (A : Nat → SchedItem) (avail : Nat → Bool)
    (deal_items : List Nat) (i : Nat) : Nat :=
  ((A i).children.filter (fun c => avail c && !(deal_items.contains c))).length
  + (((A i).reference_who.zip (A i).special_reference_type).filter
      (fun rs => avail rs.1 && !rs.2 && !(deal_items.contains rs.1))).length

/-- Entity 0 has one pending child (2) and nothing else; entity 1 has one
pending weak-referenced entity (3) and no children. -/
def c3arena : Nat → SchedItem := fun i =>
  if i = 0 then ⟨[2], [], []⟩
  else if i = 1 then ⟨[], [3], [true]⟩
  else ⟨[], [], []⟩

/-! ## parse_reference (doc_meta_info.py lines 459-564)

Entities live in an arena `A : Nat → RefItem` holding the structural fields
that `parse_reference` reads but never writes; the three edge lists it
appends to form the mutable `RefState`.  The jedi query results
(`find_all_referencer` hits) arrive as data, so the reference pass is the
fold of `processHit` over the worklist of `(now_obj, referencer_pos)` pairs
produced by the file/object traversal. -/

/-- Structural data of one `DocItem`: `tree_path` is the root-first ancestor
chain ending at the item itself (`parse_tree_path`); `children` is the
name-keyed child dict; `content_start`/`content_end` mirror
`content["code_start_line"]`/`content["code_end_line"]` read by
`find_obj_with_lineno`; `code_start_line` is the attribute used by the
weak-edge test. -/
structure RefItem where
  obj_name : String
  item_type : DocItemType
  code_start_line : Int
  content_start : Int
  content_end : Int
  tree_path : List Nat
  children : List (String × Nat)
deriving Repr, DecidableEq

/-- The three mutable edge fields of the `DocItem`s. -/
structure RefState where
  reference_who : Nat → List Nat
  who_reference_me : Nat → List Nat
  special_reference_type : Nat → List Bool

/-- The `DocItem.has_ans_relation` (lines 134-149): the earlier node if one lies
on the tree path of the other, else `None`. -/
def has_ans_relation (A : Nat → RefItem) (now_a now_b : Nat) : Option Nat :=
  if now_b ∈ (A now_a).tree_path then some now_b
  else if now_a ∈ (A now_b).tree_path then some now_a
  else none

/-- The `DocItem.find` (lines 213-222): descend the child dicts along the path
segments, failing when a segment is missing. -/
def docItemFind (A : Nat → RefItem) : Nat → List String → Option Nat
  | now, [] => some now
  | now, seg :: rest =>
    match (A now).children.lookup seg with
    | some child => docItemFind A child rest
    | none => none

/-- The `MetaInfo.find_obj_with_lineno` (lines 440-457): while the current node
has children, descend into the first child whose
`content["code_start_line"] ≤ line ≤ content["code_end_line"]`, stopping when
no child qualifies.  `fuel` bounds the descent; the source loop terminates
because children strictly descend the finite tree. -/
def find_obj_with_lineno (A : Nat → RefItem) : Nat → Nat → Int → Nat
  | 0, now, _ => now
  | fuel + 1, now, line =>
    match ((A now).children.map Prod.snd).find?
        (fun c => decide ((A c).content_start ≤ line) &&
                  decide ((A c).content_end ≥ line)) with
    | some child => find_obj_with_lineno A fuel child line
    | none => now

/-- One `referencer_pos` triple returned by `find_all_referencer`.  File
paths are represented pre-split into their `/`-separated segments, so the
source's `referencer_file_ral_path.split("/")` is the identity here and the
membership tests against `fake_file_reflection.values()` / `jump_files`
compare the same canonical segment lists. -/
structure RefHit where
  path : List String
  line : Int
  column : Int
deriving Repr, DecidableEq

/-- Run-wide constants of `parse_reference`:
`fake_file_reflection.values()`, `jump_files`, the repo root entity and a
descent bound for `find_obj_with_lineno`. -/
structure RefEnv where
  fakeFileValues : List (List String)
  jump_files : List (List String)
  rootId : Nat
  fuel : Nat

/-- The body of the `for referencer_pos in reference_list:` loop in
`walk_file` (lines 498-557): skip hits from fake or untracked files, locate
the referencing file in the tree (skipping unknown files), resolve the
referencing entity by line, skip same-name hits, and unless the two entities
are in an ancestor relation or the edge already exists, append the edge with
its `special_reference_type` flag — true when the referencer is of a
function kind and its `code_start_line` equals the hit line. -/
def processHit (A : Nat → RefItem) (env : RefEnv) (s : RefState)
    (now_obj : Nat) (hit : RefHit) : RefState :=
  if hit.path ∈ env.fakeFileValues then s
  else if hit.path ∈ env.jump_files then s
  else
    match docItemFind A env.rootId hit.path with
    | none => s
    | some referencer_file_item =>
      let referencer_node :=
        find_obj_with_lineno A env.fuel referencer_file_item hit.line
      if (A referencer_node).obj_name = (A now_obj).obj_name then s
      else if has_ans_relation A now_obj referencer_node = none then
        if now_obj ∈ s.reference_who referencer_node then s
        else
          { reference_who := Function.update s.reference_who referencer_node
              (s.reference_who referencer_node ++ [now_obj]),
            who_reference_me := Function.update s.who_reference_me now_obj
              (s.who_reference_me now_obj ++ [referencer_node]),
            special_reference_type :=
              Function.update s.special_reference_type referencer_node
                (s.special_reference_type referencer_node ++
                  [decide ((((A referencer_node).item_type = DocItemType._function ∨
                    (A referencer_node).item_type = DocItemType._sub_function ∨
                    (A referencer_node).item_type = DocItemType._class_function)) ∧
                    (A referencer_node).code_start_line = hit.line)]) }
      else s

/-- The `parse_reference` restricted to its edge-building effect: fold
`processHit` over the traversal worklist, starting from the freshly built
tree whose edge lists are all empty. -/
def parseReferenceRun (A : Nat → RefItem) (env : RefEnv)
    (hits : List (Nat × RefHit)) (s : RefState) : RefState :=
  hits.foldl (fun st oh => processHit A env st oh.1 oh.2) s

def emptyRefState : RefState := ⟨fun _ => [], fun _ => [], fun _ => []⟩

/-- Invariant: no edge connects an entity with a node on its own tree path. -/
def NoAncestorEdges (A : Nat → RefItem) (s : RefState) : Prop :=
  ∀ a b, (b ∈ s.reference_who a ∨ a ∈ s.who_reference_me b) →
    b ∉ (A a).tree_path ∧ a ∉ (A b).tree_path

/-- A small concrete tree: entity 0 is the repo root with files `f.py` (1)
and `g.py` (3); the class `A` (2) spans lines 1-10 of `f.py`; the function
`foo` (4) spans lines 1-5 of `g.py`.  Both defining entities start at
line 1. -/
def c6arena : Nat → RefItem := fun i =>
  if i = 0 then ⟨"full_repo", DocItemType._repo, -1, -1, -1, [0],
    [("f.py", 1), ("g.py", 3)]⟩
  else if i = 1 then ⟨"f.py", DocItemType._file, -1, -1, -1, [0, 1],
    [("A", 2)]⟩
  else if i = 2 then ⟨"A", DocItemType._class, 1, 1, 10, [0, 1, 2], []⟩
  else if i = 3 then ⟨"g.py", DocItemType._file, -1, -1, -1, [0, 3],
    [("foo", 4)]⟩
  else ⟨"foo", DocItemType._function, 1, 1, 5, [0, 3, 4], []⟩

def c6env : RefEnv := ⟨[], [], 0, 10⟩

/-! ## find_all_referencer (doc_meta_info.py lines 272-296)

The active implementation used by `parse_reference` is the jedi-based one in
`doc_meta_info.py`.  The jedi call `script.get_references(...)` is external:
its result list arrives as data (`refs`), with `.error` standing for a raised
exception (the `except` branch returns `[]` after logging).  `relpath`
stands for `os.path.relpath(·, repo_path)`. -/

structure JediRef where
  name : String
  module_path : String
  line : Int
  column : Int
deriving Repr, DecidableEq

/-- The body of `find_all_referencer`: filter the references by
`ref.name == variable_name`, then return `(relpath(ref.module_path), line,
column)` for every reference that does not sit at the query's
`(line_number, column_number)` — in whatever file. -/
def find_all_referencer (relpath : String → String)
    (refs : Except Unit (List JediRef)) (variable_name : String)
    (line_number column_number : Int) : List (String × Int × Int) :=
  match refs with
  | .error _ => []
  | .ok references =>
      (((references.filter (fun r => decide (r.name = variable_name))).filter
        (fun r => !(decide (r.line = line_number) &&
                    decide (r.column = column_number)))).map
        (fun r => (relpath r.module_path, r.line, r.column)))

/-- The contract as the claim words it: return every other occurrence,
excluding only the origin occurrence itself — the one in `file_path` at
`(line_number, column_number)`. -/
def findAllReferencerClaimed (relpath : String → String)
    (refs : Except Unit (List JediRef)) (variable_name : String)
    (file_path : String) (line_number column_number : Int) :
    List (String × Int × Int) :=
  match refs with
  | .error _ => []
  | .ok references =>
      (((references.filter (fun r => decide (r.name = variable_name))).filter
        (fun r => !(decide (relpath r.module_path = file_path) &&
                    decide (r.line = line_number) &&
                    decide (r.column = column_number)))).map
        (fun r => (relpath r.module_path, r.line, r.column)))

/-! ## Father attachment in `MetaInfo.from_project_hierarchy_json`
(doc_meta_info.py lines 878-919)

Each record of a file is attached to the smallest strictly containing record
of the same file, or to the file node itself.  File nodes are created as
`DocItem(item_type=_file, obj_name=...)`, so they keep the `DocItem`
defaults `code_start_line = code_end_line = -1`. -/

structure HRecord where
  name : String
  code_start_line : Int
  code_end_line : Int
deriving Repr, DecidableEq

/-- The `code_contain(item, other)`: `False` when the ranges coincide exactly or
`other` ends before `item` or starts after it; `True` otherwise. -/
def code_contain (item other : HRecord) : Bool :=
  if other.code_end_line = item.code_end_line ∧
      other.code_start_line = item.code_start_line then false
  else if other.code_end_line < item.code_end_line ∨
      other.code_start_line > item.code_start_line then false
  else true

/-- The `for other_item in obj_item_list:` loop selecting
`potential_father`: among containing records, the first one with the
strictly smallest line span wins. -/
def pickFather (item : HRecord) (obj_item_list : List HRecord) :
    Option HRecord :=
  obj_item_list.foldl
    (fun potential_father other_item =>
      if code_contain item other_item then
        match potential_father with
        | none => some other_item
        | some pf =>
            if other_item.code_end_line - other_item.code_start_line <
                pf.code_end_line - pf.code_start_line then some other_item
            else some pf
      else potential_father)
    none

/-- The file node that becomes the father when no record contains `item`. -/
def fileItemRecord (file_name : String) : HRecord := ⟨file_name, -1, -1⟩

/-- Lines 905-907: `potential_father`, defaulting to the file item. -/
def assignedFather (item : HRecord) (obj_item_list : List HRecord)
    (file_name : String) : HRecord :=
  (pickFather item obj_item_list).getD (fileItemRecord file_name)

/-! ## load_doc_from_older_meta (doc_meta_info.py lines 656-740)

Trees are nested: a node's `NodeData` plus its ordered, name-keyed children
(`key` is the name under which the child sits in its father's `children`
dict — the name `find_item` matches; `obj_name` may differ after duplicate
suffixing and is what `get_full_name` joins).  `new_reference_names` holds,
for new-tree nodes, the strict full names of `who_reference_me` as computed
by the `parse_reference` rerun between `travel` and `travel2`; old-tree
nodes carry their saved `who_reference_me_name_list`. -/

structure NodeData where
  key : String
  obj_name : String
  item_type : DocItemType
  md_content : List String
  item_status : DocItemStatus
  code_content : Option String
  who_reference_me_name_list : List String
  new_reference_names : List String
deriving Repr, DecidableEq

inductive DTree where
  | node (data : NodeData) (children : List DTree)

def DTree.data : DTree → NodeData
  | .node d _ => d

def DTree.children : DTree → List DTree
  | .node _ cs => cs

/-- Child lookup by dict key (Python dict: first and only match). -/
def childAt (t : DTree) (k : String) : Option DTree :=
  t.children.find? (fun c => c.data.key == k)

/-- Descend a root-to-node key path — what `find_item` resolves by walking
`father` chains and matching each node's key in its father's children. -/
def lookupPath : DTree → List String → Option DTree
  | t, [] => some t
  | t, k :: rest =>
      match childAt t k with
      | some c => lookupPath c rest
      | none => none

/-- The `get_full_name()`: the `obj_name` chain below the root joined by `/`. -/
def fullNameOf (prefixNames : List String) (objName : String) : String :=
  String.intercalate "/" (prefixNames ++ [objName])

/-- The node-level effect of `travel` (lines 699-709): copy `md_content` and
`item_status` from the old item; when the old content has a `code_content`
key (the source then asserts the new side has one too) and the two differ,
force `code_changed`. -/
def mergeOwnData (od nd : NodeData) : NodeData :=
  { nd with
    md_content := od.md_content,
    item_status :=
      match od.code_content, nd.code_content with
      | some oc, some nc =>
          if oc ≠ nc then DocItemStatus.code_changed else od.item_status
      | _, _ => od.item_status }

/-- Python `set(a) <= set(b)` on name lists. -/
def setSubB (a b : List String) : Bool := a.all (fun x => b.contains x)

/-- Python `set(a) == set(b)` on name lists. -/
def setEqB (a b : List String) : Bool := setSubB a b && setSubB b a

/-- The node-level effect of `travel2` (lines 722-734): when the
post-`parse_reference` referencer-name set differs from the saved
`who_reference_me_name_list` and the carried-over status is
`doc_up_to_date`, set `referencer_not_exist` if the new set is contained in
the old one, else `add_new_referencer`. -/
def travel2Data (od nd : NodeData) : NodeData :=
  if (¬ setEqB nd.new_reference_names od.who_reference_me_name_list = true)
      ∧ nd.item_status = DocItemStatus.doc_up_to_date then
    if setSubB nd.new_reference_names od.who_reference_me_name_list then
      { nd with item_status := DocItemStatus.referencer_not_exist }
    else
      { nd with item_status := DocItemStatus.add_new_referencer }
  else nd

mutual
/-- The `find_item`-guided recursion shared by `travel` and `travel2` of
`load_doc_from_older_meta`: walk every old item; its structural counterpart
in the new tree is the node at the parallel root-to-node key path (what
`find_item` computes step by step), so the recursion carries the old node
together with its counterpart.  The node-level update `f` is applied to the
counterpart, then the old children are visited in order: a child whose key
exists in the counterpart's children is merged recursively into that child;
a missing child contributes a `deleted_items` entry
`[full_name, item_type.name]` and its subtree is not visited.  `travel`
instantiates `f := mergeOwnData` and keeps the collected entries; `travel2`
instantiates `f := travel2Data` and records nothing for missing items, so
its collected entries are discarded.  `p` accumulates the below-root
`obj_name` chain for `get_full_name`. -/
def walkMerge (f : NodeData → NodeData → NodeData) :
    List String → DTree → DTree → DTree × List (String × DocItemType)
  | p, .node od ocs, n =>
      walkChildren f p ocs (.node (f od n.data) n.children)

def walkChildren (f : NodeData → NodeData → NodeData) :
    List String → List DTree → DTree → DTree × List (String × DocItemType)
  | _, [], n => (n, [])
  | p, och :: rest, n =>
      match childAt n och.data.key with
      | some nc =>
          let r1 := walkMerge f (p ++ [och.data.obj_name]) och nc
          let r2 := walkChildren f p rest
            (.node n.data (n.children.map
              (fun c => if c.data.key == och.data.key then r1.1 else c)))
          (r2.1, r1.2 ++ r2.2)
      | none =>
          let r2 := walkChildren f p rest n
          (r2.1, (fullNameOf p och.data.obj_name, och.data.item_type) :: r2.2)
end

/-- The deleted-items list collected by `travel`. -/
def travelDeleted (old newTree : DTree) : List (String × DocItemType) :=
  (walkMerge mergeOwnData [] old newTree).2

/-- The `MetaInfo.load_doc_from_older_meta` restricted to its tree and
deleted-items effect: `travel`, then (`parse_reference` having produced the
`new_reference_names` fields) `travel2`; the deleted items collected by
`travel` are stored in `deleted_items_from_older_meta`. -/
def load_doc_from_older_meta (old newTree : DTree) :
    DTree × List (String × DocItemType) :=
  let r := walkMerge mergeOwnData [] old newTree
  ((walkMerge travel2Data [] old r.1).1, r.2)

mutual
/-- Key uniqueness within every children dict (Python dicts guarantee it). -/
def keysNodupB : DTree → Bool
  | .node _ cs => decide ((cs.map (fun c => c.data.key)).Nodup) && keysNodupL cs

def keysNodupL : List DTree → Bool
  | [] => true
  | c :: rest => keysNodupB c && keysNodupL rest
end

mutual
/-- Pre-order enumeration of all strict descendants of a node: relative key
path, `get_full_name()` and kind; `names` accumulates the below-root
`obj_name` chain. -/
def enumRel (names : List String) : DTree → List (List String × String × DocItemType)
  | .node _ cs => enumRelL names cs

def enumRelL (names : List String) :
    List DTree → List (List String × String × DocItemType)
  | [] => []
  | c :: rest =>
      ([c.data.key], fullNameOf names c.data.obj_name, c.data.item_type)
        :: ((enumRel (names ++ [c.data.obj_name]) c).map
              (fun e => (c.data.key :: e.1, e.2))
            ++ enumRelL names rest)
end

/-- The deletion record in the words of the claim: every old entity whose
path is missing from the new tree while its parent's path is present,
listed in traversal order as its (full name, kind) pair. -/
def deletedSpec (old newTree : DTree) : List (String × DocItemType) :=
  (enumRel [] old).filterMap
    (fun e =>
      if (lookupPath newTree e.1).isNone ∧ (lookupPath newTree e.1.dropLast).isSome
      then some e.2 else none)

/-- Old tree: the file `a.py` containing the function `f`. -/
def c7old : DTree :=
  .node ⟨"full_repo", "full_repo", DocItemType._repo, [],
      DocItemStatus.doc_up_to_date, none, [], []⟩
    [.node ⟨"a.py", "a.py", DocItemType._file, [],
        DocItemStatus.doc_up_to_date, none, [], []⟩
      [.node ⟨"f", "f", DocItemType._function, [],
          DocItemStatus.doc_up_to_date, none, [], []⟩ []]]

/-- New tree: `a.py` (and everything inside it) was deleted. -/
def c7new : DTree :=
  .node ⟨"full_repo", "full_repo", DocItemType._repo, [],
      DocItemStatus.doc_has_not_been_generated, none, [], []⟩ []

/-- Old tree for the C4 witness: `a.py/f` is documented (`doc_up_to_date`,
one doc version) and had the referencer `a.py/g`. -/
def c4old : DTree :=
  .node ⟨"full_repo", "full_repo", DocItemType._repo, [],
      DocItemStatus.doc_has_not_been_generated, none, [], []⟩
    [.node ⟨"a.py", "a.py", DocItemType._file, [],
        DocItemStatus.doc_up_to_date, none, [], []⟩
      [.node ⟨"f", "f", DocItemType._function, ["fdoc"],
          DocItemStatus.doc_up_to_date, some "def f: 1", ["a.py/g"], []⟩ []]]

/-- New tree for the C4 witness: same code for `f`, but `parse_reference`
found no referencers any more. -/
def c4new : DTree :=
  .node ⟨"full_repo", "full_repo", DocItemType._repo, [],
      DocItemStatus.doc_has_not_been_generated, none, [], []⟩
    [.node ⟨"a.py", "a.py", DocItemType._file, [],
        DocItemStatus.doc_has_not_been_generated, none, [], []⟩
      [.node ⟨"f", "f", DocItemType._function, [],
          DocItemStatus.doc_has_not_been_generated, some "def f: 1", [], []⟩ []]]

def c4osub : DTree :=
  .node ⟨"f", "f", DocItemType._function, ["fdoc"],
    DocItemStatus.doc_up_to_date, some "def f: 1", ["a.py/g"], []⟩ []

def c4nsub : DTree :=
  .node ⟨"f", "f", DocItemType._function, [],
    DocItemStatus.doc_has_not_been_generated, some "def f: 1", [], []⟩ []

theorem addsIn_cons (op : TMOp) (ops : List TMOp) :
    addsIn (op :: ops) = addsIn [op] ++ addsIn ops := by
  cases op <;> simp [addsIn]

theorem completedIn_cons (op : TMOp) (ops : List TMOp) :
    completedIn (op :: ops) = completedIn [op] ++ completedIn ops := by
  cases op <;> simp [completedIn]

theorem tmInv_applyOp {m : TaskManager} {adds : List (List Nat)}
    {completed : List Nat} (h : TMInv m adds completed) (op : TMOp)
    (hok : opOK m op = true) :
    TMInv (applyOp m op) (adds ++ addsIn [op]) (completed ++ completedIn [op]) := by
  obtain ⟨hnow, hcomp, hdict⟩ := h
  cases op with
  | add deps e =>
    rw [show addsIn [TMOp.add deps e] = [deps] from rfl,
        show completedIn [TMOp.add deps e] = [] from rfl, List.append_nil]
    simp only [opOK, Bool.and_eq_true, decide_eq_true_eq, List.all_eq_true] at hok
    obtain ⟨hnd, hsub⟩ := hok
    have hsub' : ∀ d ∈ deps, d ∈ m.keys := by
      intro d hd
      have := hsub d hd
      simpa using this
    refine ⟨?_, ?_, ?_⟩
    · simp [applyOp, TaskManager.add_task, hnow]
    · intro c hc
      obtain ⟨hlt, hnk⟩ := hcomp c hc
      constructor
      · simp only [applyOp, TaskManager.add_task]
        omega
      · simp only [applyOp, TaskManager.add_task, TaskManager.keys,
          List.map_append, List.mem_append] at hnk ⊢
        rintro (hin | hin)
        · exact hnk hin
        · simp at hin
          omega
    · intro p hp
      simp only [applyOp, TaskManager.add_task, List.mem_append,
        List.mem_singleton] at hp
      rcases hp with hp | hp
      · obtain ⟨hid, D, hD, hDnd, hdep⟩ := hdict p hp
        refine ⟨hid, D, ?_, hDnd, hdep⟩
        have hlt : p.1 < adds.length := (List.getElem?_eq_some.1 hD).1
        rw [List.getElem?_append_left hlt]
        exact hD
      · subst hp
        refine ⟨rfl, deps, ?_, hnd, ?_⟩
        · rw [hnow]
          exact List.getElem?_concat_length adds deps
        · show deps = List.filter (fun d => decide (d ∉ completed)) deps
          symm
          rw [List.filter_eq_self]
          intro d hd
          have : d ∉ completed := fun hdc => (hcomp d hdc).2 (hsub' d hd)
          simpa using this
  | next =>
    rw [show addsIn [TMOp.next] = [] from rfl,
        show completedIn [TMOp.next] = [] from rfl,
        List.append_nil, List.append_nil]
    have hkeys : ∀ (t1 : Task) (tid : Nat),
        (m.task_dict.map (fun p => if p.1 = tid then (p.1, t1) else p)).map Prod.fst
          = m.keys := by
      intro t1 tid
      rw [List.map_map]
      apply List.map_congr_left
      intro p _
      by_cases hp : p.1 = tid <;> simp [hp]
    rcases hfind : m.task_dict.find? taskReady with _ | ⟨tid, t⟩
    · simp only [applyOp, TaskManager.get_next_task, hfind]
      exact ⟨hnow, fun c hc => hcomp c hc, fun p hp => hdict p hp⟩
    · simp only [applyOp, TaskManager.get_next_task, hfind]
      have htmem : (tid, t) ∈ m.task_dict := List.mem_of_find?_eq_some hfind
      obtain ⟨hid, D, hD, hDnd, hdep⟩ := hdict (tid, t) htmem
      refine ⟨hnow, ?_, ?_⟩
      · intro c hc
        obtain ⟨hlt, hnk⟩ := hcomp c hc
        refine ⟨hlt, ?_⟩
        simpa only [TaskManager.keys, hkeys] using hnk
      · intro p hp
        simp only [List.mem_map] at hp
        obtain ⟨q, hq, hpq⟩ := hp
        obtain ⟨hqid, Dq, hDq, hDqnd, hqdep⟩ := hdict q hq
        by_cases hcase : q.1 = tid
        · rw [if_pos hcase] at hpq
          subst hpq
          exact ⟨by simpa using hid.trans hcase.symm, D,
            by simpa [hcase] using hD, hDnd, by simpa using hdep⟩
        · rw [if_neg hcase] at hpq
          subst hpq
          exact ⟨hqid, Dq, hDq, hDqnd, hqdep⟩
  | complete tid =>
    rw [show addsIn [TMOp.complete tid] = [] from rfl,
        show completedIn [TMOp.complete tid] = [tid] from rfl, List.append_nil]
    simp only [opOK] at hok
    have hidmem : tid ∈ m.keys := by simpa using hok
    have hidlt : tid < adds.length := by
      simp only [TaskManager.keys, List.mem_map] at hidmem
      obtain ⟨pid, hpidmem, hpidfst⟩ := hidmem
      obtain ⟨_, Did, hDid, _, _⟩ := hdict pid hpidmem
      have := (List.getElem?_eq_some.1 hDid).1
      omega
    have hmemdict : ∀ p : Nat × Task,
        p ∈ (m.mark_completed tid).task_dict →
          p.1 ≠ tid ∧ ∃ q ∈ m.task_dict, p =
            (q.1, Task.mk q.2.task_id (q.2.dependencies.erase tid)
              q.2.status q.2.extra_info) := by
      intro p hp
      simp only [TaskManager.mark_completed, List.mem_filter, List.mem_map] at hp
      obtain ⟨⟨q, hq, hpq⟩, hne⟩ := hp
      refine ⟨by simpa using hne, q, hq, hpq.symm⟩
    refine ⟨?_, ?_, ?_⟩
    · simpa [applyOp, TaskManager.mark_completed] using hnow
    · intro c hc
      rw [List.mem_append, List.mem_singleton] at hc
      have hknew : ∀ x, x ∈ (applyOp m (TMOp.complete tid)).keys →
          x ≠ tid ∧ x ∈ m.keys := by
        intro x hx
        simp only [applyOp, TaskManager.keys, List.mem_map] at hx
        obtain ⟨p, hp, hpx⟩ := hx
        obtain ⟨hne, q, hq, hpq⟩ := hmemdict p hp
        subst hpq
        exact ⟨by simpa using hpx ▸ hne, by
          simp only [TaskManager.keys, List.mem_map]
          exact ⟨q, hq, by simpa using hpx⟩⟩
      rcases hc with hc | hc
      · obtain ⟨hlt, hnk⟩ := hcomp c hc
        refine ⟨by simpa [applyOp, TaskManager.mark_completed] using hlt, ?_⟩
        intro hcmem
        exact hnk (hknew c hcmem).2
      · subst hc
        refine ⟨by simp only [applyOp, TaskManager.mark_completed]; omega, ?_⟩
        intro hcmem
        exact (hknew c hcmem).1 rfl
    · intro p hp
      obtain ⟨hne, q, hq, hpq⟩ := hmemdict p (by simpa [applyOp] using hp)
      obtain ⟨hqid, Dq, hDq, hDqnd, hqdep⟩ := hdict q hq
      subst hpq
      refine ⟨hqid, Dq, hDq, hDqnd, ?_⟩
      have hfilnd : (Dq.filter (fun d => decide (d ∉ completed))).Nodup :=
        hDqnd.filter _
      simp only [hqdep]
      rw [List.Nodup.erase_eq_filter hfilnd tid, List.filter_filter]
      apply List.filter_congr
      intro d hd
      by_cases h1 : d ∈ completed <;> by_cases h2 : d = tid <;>
        simp [h1, h2]

theorem tmInv_runFrom :
    ∀ (ops : List TMOp) (m : TaskManager) (adds : List (List Nat))
      (completed : List Nat), TMInv m adds completed → wfFrom m ops = true →
      TMInv (runFrom m ops) (adds ++ addsIn ops) (completed ++ completedIn ops)
  | [], m, adds, completed, h, _ => by
      simpa [runFrom, addsIn, completedIn] using h
  | op :: ops, m, adds, completed, h, hwf => by
      rw [show wfFrom m (op :: ops)
            = (opOK m op && wfFrom (applyOp m op) ops) from rfl,
          Bool.and_eq_true] at hwf
      have hstep := tmInv_applyOp h op hwf.1
      have hrec := tmInv_runFrom ops (applyOp m op) _ _ hstep hwf.2
      rw [show runFrom m (op :: ops) = runFrom (applyOp m op) ops from rfl]
      rw [addsIn_cons op ops, completedIn_cons op ops,
          ← List.append_assoc, ← List.append_assoc]
      exact hrec

theorem tmInv_reachable (ops : List TMOp)
    (hwf : wfFrom TaskManager.initial ops = true) :
    TMInv (runFrom TaskManager.initial ops) (addsIn ops) (completedIn ops) := by
  have h0 : TMInv TaskManager.initial [] [] := by
    refine ⟨rfl, by simp, by simp [TaskManager.initial]⟩
  simpa using tmInv_runFrom ops TaskManager.initial [] [] h0 hwf

/-- Claim C1: For every task managed by `TaskManager`, the task is never
dispatched (returned by `get_next_task`) before every task in its
`dependencies` set has been completed via `mark_completed`: along any
well-formed trace of operations, `get_next_task` returns a task only when its
current dependency list is empty and its status is pending (`0`), in which
case every dependency id it was created with occurs among the earlier
`mark_completed` calls; and `mark_completed` removes the completed task from
the task map and purges it from every other task's dependencies list
(dependency lists being duplicate-free, as the one caller guarantees). -/
theorem c1_never_dispatched_before_dependencies_completed :
    (∀ (ops : List TMOp) (t : Task) (id : Nat),
        wfFrom TaskManager.initial ops = true →
        (runFrom TaskManager.initial ops).get_next_task.1 = some (t, id) →
        ∃ t0, (id, t0) ∈ (runFrom TaskManager.initial ops).task_dict ∧
          t0.dependencies = [] ∧ t0.status = 0 ∧
          t = ⟨id, [], 1, t0.extra_info⟩ ∧
          ∀ D, (addsIn ops)[id]? = some D → ∀ d ∈ D, d ∈ completedIn ops)
    ∧ (∀ (m : TaskManager) (id : Nat),
        (∀ p ∈ m.task_dict, p.2.dependencies.Nodup) →
        ∀ p ∈ (m.mark_completed id).task_dict,
          p.1 ≠ id ∧ id ∉ p.2.dependencies) := by
  constructor
  · intro ops t id hwf hget
    obtain ⟨_, _, hdict⟩ := tmInv_reachable ops hwf
    revert hget
    unfold TaskManager.get_next_task
    rcases hfind : (runFrom TaskManager.initial ops).task_dict.find? taskReady
      with _ | ⟨tid, t0⟩
    · intro hget
      exact absurd hget (by simp)
    · intro hget
      simp only [Option.some.injEq, Prod.mk.injEq] at hget
      obtain ⟨ht, hid⟩ := hget
      have hmem : (tid, t0) ∈ (runFrom TaskManager.initial ops).task_dict :=
        List.mem_of_find?_eq_some hfind
      have hready := List.find?_some hfind
      rw [taskReady, Bool.and_eq_true] at hready
      have hdeps : t0.dependencies = [] := by
        simpa using hready.1
      have hstat : t0.status = 0 := by
        simpa using hready.2
      obtain ⟨htid, D, hD, _, hDdep⟩ := hdict (tid, t0) hmem
      subst hid
      refine ⟨t0, hmem, hdeps, hstat, ?_, ?_⟩
      · rw [← ht]
        have htid' : t0.task_id = tid := htid
        simp [htid', hdeps]
      · intro D' hD' d hd
        rw [hD] at hD'
        injection hD' with hDD
        subst hDD
        have := hDdep.symm
        rw [hdeps] at this
        rw [List.filter_eq_nil_iff] at this
        have hdd := this d hd
        simpa using hdd
  · intro m id hnd p hp
    simp only [TaskManager.mark_completed, List.mem_filter, List.mem_map] at hp
    obtain ⟨⟨q, hq, hpq⟩, hne⟩ := hp
    subst hpq
    refine ⟨by simpa using hne, ?_⟩
    exact (hnd q hq).not_mem_erase

theorem c1_never_dispatched_before_dependencies_completed_witness :
    (wfFrom TaskManager.initial c1ops = true ∧
      (runFrom TaskManager.initial c1ops).get_next_task.1
        = some (⟨1, [], 1, 7⟩, 1)) ∧
    ∃ t0, (1, t0) ∈ (runFrom TaskManager.initial c1ops).task_dict ∧
      t0.dependencies = [] ∧ t0.status = 0 ∧
      (⟨1, [], 1, 7⟩ : Task) = ⟨1, [], 1, t0.extra_info⟩ ∧
      ∀ D, (addsIn c1ops)[1]? = some D → ∀ d ∈ D, d ∈ completedIn c1ops :=
  ⟨⟨by decide, by decide⟩,
    c1_never_dispatched_before_dependencies_completed.1 c1ops ⟨1, [], 1, 7⟩ 1
      (by decide) (by decide)⟩

/-- Claim C2 counterexample:  The claim says the task map is protected by one
coarse lock making the test-and-mark of `get_next_task` atomic, "so that no
task is ever dispatched twice".  No such lock exists in `TaskManager`; in the
schedule where both workers run the readiness test (lines 39-41) before
either runs the marking step (lines 43-47), both workers are handed task 0:
the same task is dispatched twice. -/
theorem c2_double_dispatch_counterexample :
    (stepB (stepA (stepB (stepA c2start)))).wA = .got 0 ∧
    (stepB (stepA (stepB (stepA c2start)))).wB = .got 0 ∧
    c2start.mgr.task_dict = [(0, ⟨0, [], 0, 9⟩)] := by
  decide

/-- Claim C2 amended:  Within one (non-interleaved) `get_next_task` call the
readiness test and the in-flight marking happen together: a returned task was
pending with no remaining blockers, its map entry is marked in-flight
(`status = 1`) in the returned state, and a task already marked in-flight is
never returned by a later sequential call. -/
theorem c2_sequential_test_and_mark_atomic :
    (∀ (m : TaskManager) (t : Task) (id : Nat),
        m.get_next_task.1 = some (t, id) →
        (∃ t0, (id, t0) ∈ m.task_dict ∧ t0.dependencies = []
            ∧ t0.status = 0) ∧
        ∃ p ∈ m.get_next_task.2.task_dict, p.1 = id ∧ p.2.status = 1)
    ∧ (∀ (m : TaskManager) (t : Task) (id : Nat),
        (∀ p ∈ m.task_dict, p.1 = id → p.2.status = 1) →
        m.get_next_task.1 ≠ some (t, id)) := by
  constructor
  · intro m t id
    unfold TaskManager.get_next_task
    rcases hfind : m.task_dict.find? taskReady with _ | ⟨tid, t0⟩
    · intro hget
      exact absurd hget (by simp)
    · intro hget
      simp only [Option.some.injEq, Prod.mk.injEq] at hget
      obtain ⟨ht, hid⟩ := hget
      subst hid
      have hmem : (tid, t0) ∈ m.task_dict := List.mem_of_find?_eq_some hfind
      have hready := List.find?_some hfind
      rw [taskReady, Bool.and_eq_true] at hready
      refine ⟨⟨t0, hmem, by simpa using hready.1, by simpa using hready.2⟩, ?_⟩
      refine ⟨(tid, ⟨t0.task_id, t0.dependencies, 1, t0.extra_info⟩), ?_, rfl, rfl⟩
      simp only [List.mem_map]
      exact ⟨(tid, t0), hmem, by simp⟩
  · intro m t id hstat hget
    revert hget
    unfold TaskManager.get_next_task
    rcases hfind : m.task_dict.find? taskReady with _ | ⟨tid, t0⟩
    · simp
    · intro hget
      simp only [Option.some.injEq, Prod.mk.injEq] at hget
      obtain ⟨_, hid⟩ := hget
      have hmem : (tid, t0) ∈ m.task_dict := List.mem_of_find?_eq_some hfind
      have hready := List.find?_some hfind
      rw [taskReady, Bool.and_eq_true] at hready
      have h0 : t0.status = 0 := by simpa using hready.2
      have h1 : t0.status = 1 := hstat (tid, t0) hmem hid
      omega

/-- Witness for `c2_sequential_test_and_mark_atomic` at a concrete manager:
dispatching from a map holding the single ready task 0 returns that task,
whose entry was pending before the call and is in-flight afterwards. -/
theorem c2_sequential_test_and_mark_atomic_witness :
    ((⟨[(0, ⟨0, [], 0, 9⟩)], 1, 0⟩ : TaskManager).get_next_task.1
        = some (⟨0, [], 1, 9⟩, 0)) ∧
    ((∃ t0, (0, t0) ∈ ([(0, (⟨0, [], 0, 9⟩ : Task))] : List (Nat × Task))
        ∧ t0.dependencies = [] ∧ t0.status = 0) ∧
      ∃ p ∈ (⟨[(0, ⟨0, [], 0, 9⟩)], 1, 0⟩ : TaskManager).get_next_task.2.task_dict,
        p.1 = 0 ∧ p.2.status = 1) :=
  ⟨by decide,
    c2_sequential_test_and_mark_atomic.1 ⟨[(0, ⟨0, [], 0, 9⟩)], 1, 0⟩
      ⟨0, [], 1, 9⟩ 0 (by decide)⟩

theorem exists_min_nat : ∀ (l : List Nat), l ≠ [] → ∃ k ∈ l, ∀ x ∈ l, k ≤ x
  | [], h => absurd rfl h
  | a :: l, _ => by
      rcases eq_or_ne l [] with rfl | hne
      · exact ⟨a, by simp, by simp⟩
      · obtain ⟨k, hk, hmin⟩ := exists_min_nat l hne
        by_cases hak : a ≤ k
        · refine ⟨a, by simp, ?_⟩
          intro x hx
          rcases List.mem_cons.1 hx with rfl | hx
          · exact le_refl x
          · exact le_trans hak (hmin x hx)
        · refine ⟨k, by simp [hk], ?_⟩
          intro x hx
          rcases List.mem_cons.1 hx with rfl | hx
          · omega
          · exact hmin x hx

theorem wf_ready_exists {m : TaskManager} (hwf : WFdict m)
    (hne : m.task_dict ≠ []) :
    ∃ x, m.task_dict.find? taskReady = some x := by
  have hkne : m.keys ≠ [] := by
    simpa [TaskManager.keys] using hne
  obtain ⟨k, hk, hmin⟩ := exists_min_nat m.keys hkne
  simp only [TaskManager.keys, List.mem_map] at hk
  obtain ⟨q, hq, hqk⟩ := hk
  obtain ⟨_, hstat, _, hdeps⟩ := hwf q hq
  have hdnil : q.2.dependencies = [] := by
    rcases hd : q.2.dependencies with _ | ⟨d, ds⟩
    · rfl
    · have hdmem : d ∈ q.2.dependencies := by rw [hd]; exact List.mem_cons_self d ds
      obtain ⟨hdk, hdlt⟩ := hdeps d hdmem
      have := hmin d hdk
      omega
  have hfs : (m.task_dict.find? taskReady).isSome :=
    List.find?_isSome.2 ⟨q, hq, by simp [taskReady, hdnil, hstat]⟩
  exact Option.isSome_iff_exists.1 hfs

theorem mem_dispatch_complete {m : TaskManager} {id : Nat} {t0 : Task}
    (hfind : m.task_dict.find? taskReady = some (id, t0)) (p : Nat × Task) :
    p ∈ ((m.get_next_task.2).mark_completed id).task_dict ↔
      ∃ q ∈ m.task_dict, q.1 ≠ id ∧
        p = (q.1, ⟨q.2.task_id, q.2.dependencies.erase id,
               q.2.status, q.2.extra_info⟩) := by
  simp only [TaskManager.get_next_task, hfind, TaskManager.mark_completed,
    List.mem_filter, List.mem_map]
  constructor
  · rintro ⟨⟨r, ⟨q, hq, hqr⟩, hrp⟩, hne⟩
    subst hqr
    subst hrp
    by_cases hc : q.1 = id
    · simp [hc] at hne
    · refine ⟨q, hq, hc, ?_⟩
      simp [hc]
  · rintro ⟨q, hq, hne, hp⟩
    subst hp
    refine ⟨⟨q, ⟨q, hq, by simp [hne]⟩, rfl⟩, by simpa using hne⟩

theorem wf_after_dispatch {m : TaskManager} {id : Nat} {t0 : Task}
    (hwf : WFdict m) (hfind : m.task_dict.find? taskReady = some (id, t0)) :
    WFdict ((m.get_next_task.2).mark_completed id) ∧
    ((m.get_next_task.2).mark_completed id).task_dict.length
      < m.task_dict.length := by
  constructor
  · intro p hp
    obtain ⟨q, hq, hne, hp⟩ := (mem_dispatch_complete hfind p).1 hp
    obtain ⟨hqid, hqstat, hqnd, hqdeps⟩ := hwf q hq
    subst hp
    refine ⟨hqid, hqstat, hqnd.erase id, ?_⟩
    intro d hd
    have hdmem : d ≠ id ∧ d ∈ q.2.dependencies := (hqnd.mem_erase_iff).1 hd
    obtain ⟨hdk, hdlt⟩ := hqdeps d hdmem.2
    refine ⟨?_, hdlt⟩
    simp only [TaskManager.keys, List.mem_map] at hdk
    obtain ⟨q', hq', hq'd⟩ := hdk
    simp only [TaskManager.keys, List.mem_map]
    refine ⟨(q'.1, ⟨q'.2.task_id, q'.2.dependencies.erase id,
        q'.2.status, q'.2.extra_info⟩), ?_, hq'd⟩
    exact (mem_dispatch_complete hfind _).2
      ⟨q', hq', by omega, rfl⟩
  · have hmem0 : (id, t0) ∈ m.task_dict := List.mem_of_find?_eq_some hfind
    have hkeep : ∀ (l : List (Nat × Task)) (f : Nat × Task → Nat × Task),
        (∀ q, (f q).1 = q.1) →
        ((l.map f).filter (fun p => p.1 != id)).length
          = (l.filter (fun p => p.1 != id)).length := by
      intro l f hf
      rw [List.filter_map, List.length_map]
      congr 1
      apply List.filter_congr
      intro q _
      simp [Function.comp, hf q]
    have hstep1 : ((m.get_next_task.2).mark_completed id).task_dict.length
        = ((m.get_next_task.2).task_dict.filter (fun p => p.1 != id)).length := by
      simp only [TaskManager.mark_completed]
      exact hkeep _ _ (fun q => rfl)
    have hstep2 : ((m.get_next_task.2).task_dict.filter
          (fun p => p.1 != id)).length
        = (m.task_dict.filter (fun p => p.1 != id)).length := by
      simp only [TaskManager.get_next_task, hfind]
      apply hkeep
      intro q
      by_cases hq : q.1 = id <;> simp [hq]
    rw [hstep1, hstep2]
    have hsplit := List.length_eq_length_filter_add (l := m.task_dict)
      (fun p => p.1 != id)
    have hpos : 0 < (m.task_dict.filter (fun p => !(p.1 != id))).length := by
      have : (id, t0) ∈ m.task_dict.filter (fun p => !(p.1 != id)) := by
        rw [List.mem_filter]
        exact ⟨hmem0, by simp⟩
      exact List.length_pos.2 (List.ne_nil_of_mem this)
    omega

theorem worker_drains {σ : Type} (handler : σ → Nat → σ) :
    ∀ (fuel : Nat) (m : TaskManager) (s : σ), WFdict m →
      m.task_dict.length ≤ fuel →
      (worker handler fuel m s).1.task_dict = []
  | 0, m, s, _, hlen => by
      have hnil : m.task_dict = [] :=
        List.length_eq_zero.1 (Nat.le_zero.1 hlen)
      simpa [worker] using hnil
  | fuel + 1, m, s, hwf, hlen => by
      by_cases hempty : m.task_dict.isEmpty
      · rw [worker]
        rw [if_pos (by simpa [TaskManager.all_success] using hempty)]
        simpa [List.isEmpty_iff] using hempty
      · have hne : m.task_dict ≠ [] := by
          simpa [List.isEmpty_iff] using hempty
        obtain ⟨⟨id, t0⟩, hfind⟩ := wf_ready_exists hwf hne
        have hid : t0.task_id = id :=
          (hwf _ (List.mem_of_find?_eq_some hfind)).1
        obtain ⟨hwf2, hlt⟩ := wf_after_dispatch hwf hfind
        have hstep : worker handler (fuel + 1) m s
            = worker handler fuel ((m.get_next_task.2).mark_completed t0.task_id)
                (handler s t0.extra_info) := by
          rw [worker]
          rw [if_neg (by simpa [TaskManager.all_success] using hempty)]
          have hget : m.get_next_task
              = (some (⟨t0.task_id, t0.dependencies, 1, t0.extra_info⟩, id),
                 ⟨m.task_dict.map (fun p => if p.1 = id then
                    (p.1, ⟨t0.task_id, t0.dependencies, 1, t0.extra_info⟩) else p),
                  m.now_id, m.query_id + 1⟩) := by
            simp [TaskManager.get_next_task, hfind]
          rw [hget]
        rw [hstep, hid]
        exact worker_drains handler fuel _ _ hwf2 (by omega)

/-- Claim C9:  If the content generator raises while generating documentation
for an entity, `generate_doc_for_a_single_item` catches the exception and
resets that entity's status to `doc_has_not_been_generated` (leaving its doc
versions untouched), and — the handler being total — the dispatch loop
`worker` still drains every task of a well-formed task map instead of
aborting the batch. -/
theorem c9_generation_failure_caught_batch_continues :
    (∀ (items : Nat → NtgItem) (gen : Nat → Except Unit String)
       (ignore : List String) (s : Nat → DocItemStatus × List String)
       (docId : Nat) (e : Unit),
        gen docId = .error e →
        need_to_generate (items docId) (s docId).1 ignore = true →
        (generate_doc_for_a_single_item items gen ignore s docId) docId
          = (DocItemStatus.doc_has_not_been_generated, (s docId).2))
    ∧ (∀ (items : Nat → NtgItem) (gen : Nat → Except Unit String)
         (ignore : List String) (fuel : Nat) (m : TaskManager)
         (s : Nat → DocItemStatus × List String),
        WFdict m → m.task_dict.length ≤ fuel →
        (worker (generate_doc_for_a_single_item items gen ignore)
            fuel m s).1.task_dict = []) := by
  constructor
  · intro items gen ignore s docId e hgen hneed
    unfold generate_doc_for_a_single_item
    rw [hneed]
    simp only [Bool.not_true, Bool.false_eq_true, if_false, hgen]
    simp [Function.update]
  · intro items gen ignore fuel m s hwf hlen
    exact worker_drains (generate_doc_for_a_single_item items gen ignore)
      fuel m s hwf hlen

theorem c9_generation_failure_caught_batch_continues_witness :
    (c9gen 0 = .error () ∧
      need_to_generate (c9items 0) (c9state 0).1 [] = true ∧
      (generate_doc_for_a_single_item c9items c9gen [] c9state 0) 0
        = (DocItemStatus.doc_has_not_been_generated, [])) ∧
    (WFdict c9mgr ∧
      (worker (generate_doc_for_a_single_item c9items c9gen []) 1
          c9mgr c9state).1.task_dict = []) :=
  ⟨⟨rfl, by decide,
      c9_generation_failure_caught_batch_continues.1 c9items c9gen [] c9state 0 ()
        rfl (by decide)⟩,
    ⟨by unfold WFdict; decide,
      c9_generation_failure_caught_batch_continues.2 c9items c9gen [] 1 c9mgr
        c9state (by unfold WFdict; decide) (by decide)⟩⟩

/-- Claim C3 counterexample:  Entity 1 has zero strong blockers (its only
blocker is weak), so by the claim it must be selected immediately; entity 0
has one strong blocker (a pending child).  The code instead selects entity 0:
`best_break_level` counts weak edges (so entity 1 is not short-circuited) and
`second_best_break_level` ignores children (so entity 0 scores 0 and, being
first in scan order, wins). -/
theorem c3_selection_counterexample :
    strongBlockers c3arena (fun _ => true) [] 1 = 0 ∧
    strongBlockers c3arena (fun _ => true) [] 0 = 1 ∧
    selectRound c3arena (fun _ => true) [] [0, 1] (10000000, none)
      = (0, some 0) ∧
    (some 0 : Option Nat) ≠ some 1 := by
  decide

theorem selectRound_find_zero (A : Nat → SchedItem) (avail : Nat → Bool)
    (deal_items : List Nat) :
    ∀ (l : List Nat) (acc : Int × Option Nat) (i0 : Nat),
      l.find? (fun i => best_break_level A avail deal_items i == 0) = some i0 →
      selectRound A avail deal_items l acc = (-1, some i0)
  | [], acc, i0, h => by simp at h
  | i :: rest, (macc, tgt), i0, h => by
      by_cases hzero : best_break_level A avail deal_items i = 0
      · have : i0 = i := by
          rw [List.find?_cons_of_pos _ (by simpa using hzero)] at h
          simpa using h.symm
        subst this
        simp [selectRound, hzero]
      · rw [List.find?_cons_of_neg _ (by simpa using hzero)] at h
        by_cases himp : (second_best_break_level A avail deal_items i : Int) < macc
        · simpa [selectRound, hzero, himp] using
            selectRound_find_zero A avail deal_items rest _ i0 h
        · simpa [selectRound, hzero, himp] using
            selectRound_find_zero A avail deal_items rest _ i0 h

theorem selectRound_no_zero (A : Nat → SchedItem) (avail : Nat → Bool)
    (deal_items : List Nat) :
    ∀ (l : List Nat) (macc : Int) (tgt : Option Nat),
      (∀ i ∈ l, best_break_level A avail deal_items i ≠ 0) →
      ((∀ i ∈ l, macc ≤ (second_best_break_level A avail deal_items i : Int)) ∧
        selectRound A avail deal_items l (macc, tgt) = (macc, tgt))
      ∨ (∃ j l1 l2, l = l1 ++ j :: l2 ∧
          (second_best_break_level A avail deal_items j : Int) < macc ∧
          (∀ i ∈ l, second_best_break_level A avail deal_items j
            ≤ second_best_break_level A avail deal_items i) ∧
          (∀ i ∈ l1, second_best_break_level A avail deal_items j
            < second_best_break_level A avail deal_items i) ∧
          selectRound A avail deal_items l (macc, tgt)
            = ((second_best_break_level A avail deal_items j : Int), some j))
  | [], macc, tgt, _ => Or.inl ⟨by simp, rfl⟩
  | i :: rest, macc, tgt, h0 => by
      have hzero : best_break_level A avail deal_items i ≠ 0 :=
        h0 i (List.mem_cons_self i rest)
      have h0rest : ∀ k ∈ rest, best_break_level A avail deal_items k ≠ 0 :=
        fun k hk => h0 k (List.mem_cons_of_mem i hk)
      by_cases himp : (second_best_break_level A avail deal_items i : Int) < macc
      · have hsel : selectRound A avail deal_items (i :: rest) (macc, tgt)
            = selectRound A avail deal_items rest
                ((second_best_break_level A avail deal_items i : Int), some i) := by
          simp [selectRound, hzero, himp]
        rcases selectRound_no_zero A avail deal_items rest
            (second_best_break_level A avail deal_items i : Int) (some i) h0rest with
          ⟨hge, heq⟩ | ⟨j, l1, l2, hdec, hlt, hmin, hfirst, heq⟩
        · refine Or.inr ⟨i, [], rest, by simp, himp, ?_, by simp, by rw [hsel, heq]⟩
          intro k hk
          rcases List.mem_cons.1 hk with rfl | hk
          · exact le_refl _
          · exact_mod_cast hge k hk
        · refine Or.inr ⟨j, i :: l1, l2, by simp [hdec], ?_, ?_, ?_, by rw [hsel, heq]⟩
          · calc (second_best_break_level A avail deal_items j : Int)
                < second_best_break_level A avail deal_items i := hlt
              _ < macc := himp
          · intro k hk
            rcases List.mem_cons.1 hk with rfl | hk
            · exact_mod_cast le_of_lt hlt
            · exact hmin k hk
          · intro k hk
            rcases List.mem_cons.1 hk with rfl | hk
            · exact_mod_cast hlt
            · exact hfirst k hk
      · have hsel : selectRound A avail deal_items (i :: rest) (macc, tgt)
            = selectRound A avail deal_items rest (macc, tgt) := by
          simp [selectRound, hzero, himp]
        rcases selectRound_no_zero A avail deal_items rest macc tgt h0rest with
          ⟨hge, heq⟩ | ⟨j, l1, l2, hdec, hlt, hmin, hfirst, heq⟩
        · refine Or.inl ⟨?_, by rw [hsel, heq]⟩
          intro k hk
          rcases List.mem_cons.1 hk with rfl | hk
          · omega
          · exact hge k hk
        · refine Or.inr ⟨j, i :: l1, l2, by simp [hdec], hlt, ?_, ?_, by rw [hsel, heq]⟩
          · intro k hk
            rcases List.mem_cons.1 hk with rfl | hk
            · have : (second_best_break_level A avail deal_items j : Int)
                  < second_best_break_level A avail deal_items k := by omega
              exact_mod_cast le_of_lt this
            · exact hmin k hk
          · intro k hk
            rcases List.mem_cons.1 hk with rfl | hk
            · have : (second_best_break_level A avail deal_items j : Int)
                  < second_best_break_level A avail deal_items k := by omega
              exact_mod_cast this
            · exact hfirst k hk

/-- Claim C3 amended:  At every selection round of `get_task_manager` over
the remaining entities: if some entity has zero unresolved blockers counting
children and all referenced entities (weak edges included), the first such
entity in scan order is selected immediately with `min_break_level = -1`;
otherwise the entity selected is the one with the fewest unresolved non-weak
referenced blockers (children not counted), the earliest in scan order
winning ties, and the returned `min_break_level` is that blocker count — the
cycle-break warning is printed exactly when it is positive. -/
theorem c3_selection_rule :
    (∀ (A : Nat → SchedItem) (avail : Nat → Bool) (deal_items : List Nat)
       (l : List Nat) (acc : Int × Option Nat) (i0 : Nat),
        l.find? (fun i => best_break_level A avail deal_items i == 0)
          = some i0 →
        selectRound A avail deal_items l acc = (-1, some i0))
    ∧ (∀ (A : Nat → SchedItem) (avail : Nat → Bool) (deal_items : List Nat)
         (l : List Nat),
        l ≠ [] →
        (∀ i ∈ l, best_break_level A avail deal_items i ≠ 0) →
        (∀ i ∈ l, second_best_break_level A avail deal_items i < 10000000) →
        ∃ j l1 l2, l = l1 ++ j :: l2 ∧
          (∀ i ∈ l, second_best_break_level A avail deal_items j
            ≤ second_best_break_level A avail deal_items i) ∧
          (∀ i ∈ l1, second_best_break_level A avail deal_items j
            < second_best_break_level A avail deal_items i) ∧
          selectRound A avail deal_items l (10000000, none)
            = ((second_best_break_level A avail deal_items j : Int), some j)) := by
  constructor
  · intro A avail deal_items l acc i0 hfind
    exact selectRound_find_zero A avail deal_items l acc i0 hfind
  · intro A avail deal_items l hne h0 hsmall
    rcases selectRound_no_zero A avail deal_items l 10000000 none h0 with
      ⟨hge, _⟩ | ⟨j, l1, l2, hdec, _, hmin, hfirst, heq⟩
    · rcases l with _ | ⟨i, rest⟩
      · exact absurd rfl hne
      · have h1 := hge i (List.mem_cons_self i rest)
        have h2 := hsmall i (List.mem_cons_self i rest)
        omega
    · exact ⟨j, l1, l2, hdec, hmin, hfirst, heq⟩

/-- Witness for `c3_selection_rule`: part one on a singleton pool whose item
has zero total blockers, part two on the two-entity arena of the
counterexample, where entity 0 (score 0, first in order) is selected. -/
theorem c3_selection_rule_witness :
    selectRound c3arena (fun _ => true) [] [2] (10000000, none)
      = (-1, some 2) ∧
    ∃ j l1 l2, ([0, 1] : List Nat) = l1 ++ j :: l2 ∧
      (∀ i ∈ ([0, 1] : List Nat),
        second_best_break_level c3arena (fun _ => true) [] j
          ≤ second_best_break_level c3arena (fun _ => true) [] i) ∧
      (∀ i ∈ l1, second_best_break_level c3arena (fun _ => true) [] j
          < second_best_break_level c3arena (fun _ => true) [] i) ∧
      selectRound c3arena (fun _ => true) [] [0, 1] (10000000, none)
        = ((second_best_break_level c3arena (fun _ => true) [] j : Int), some j) :=
  ⟨c3_selection_rule.1 c3arena (fun _ => true) [] [2] (10000000, none) 2
      (by decide),
    c3_selection_rule.2 c3arena (fun _ => true) [] [0, 1] (by decide)
      (by decide) (by decide)⟩

theorem processHit_preserves_no_ancestor {A : Nat → RefItem} {env : RefEnv}
    {s : RefState} (h : NoAncestorEdges A s) (now_obj : Nat) (hit : RefHit) :
    NoAncestorEdges A (processHit A env s now_obj hit) := by
  unfold processHit
  split
  · exact h
  · split
    · exact h
    · split
      · exact h
      · rename_i referencer_file_item _
        dsimp only []
        split
        · exact h
        · split
          · split
            · exact h
            · rename_i hname hans hdup
              intro a b hedge
              set rn := find_obj_with_lineno A env.fuel referencer_file_item hit.line with hrn
              have hguard : rn ∉ (A now_obj).tree_path ∧
                  now_obj ∉ (A rn).tree_path := by
                rw [has_ans_relation] at hans
                by_cases h1 : rn ∈ (A now_obj).tree_path
                · rw [if_pos h1] at hans
                  exact absurd hans (by simp)
                · rw [if_neg h1] at hans
                  by_cases h2 : now_obj ∈ (A rn).tree_path
                  · rw [if_pos h2] at hans
                    exact absurd hans (by simp)
                  · exact ⟨h1, h2⟩
              dsimp only [] at hedge
              rcases hedge with hedge | hedge
              · by_cases ha : a = rn
                · subst ha
                  rw [Function.update_same] at hedge
                  rcases List.mem_append.1 hedge with hb | hb
                  · exact h _ b (Or.inl hb)
                  · have hb : b = now_obj := by simpa using hb
                    subst hb
                    exact ⟨hguard.2, hguard.1⟩
                · rw [Function.update_noteq ha] at hedge
                  exact h a b (Or.inl hedge)
              · by_cases hb : b = now_obj
                · subst hb
                  rw [Function.update_same] at hedge
                  rcases List.mem_append.1 hedge with ha | ha
                  · exact h a _ (Or.inr ha)
                  · have ha : a = rn := by simpa using ha
                    subst ha
                    exact ⟨hguard.2, hguard.1⟩
                · rw [Function.update_noteq hb] at hedge
                  exact h a b (Or.inr hedge)
          · exact h

/-- Claim C5:  After `parse_reference` runs over any worklist with any query
results, every reference edge `(a, b)` — `b` in `a.reference_who` or `a` in
`b.who_reference_me` — connects entities neither of which lies on the
other's `tree_path`: reference edges never link an entity to its own
ancestor or descendant. -/
theorem c5_no_ancestor_or_descendant_edges
    (A : Nat → RefItem) (env : RefEnv) (hits : List (Nat × RefHit)) :
    ∀ a b, (b ∈ (parseReferenceRun A env hits emptyRefState).reference_who a ∨
        a ∈ (parseReferenceRun A env hits emptyRefState).who_reference_me b) →
      b ∉ (A a).tree_path ∧ a ∉ (A b).tree_path := by
  have main : ∀ (hs : List (Nat × RefHit)) (s : RefState),
      NoAncestorEdges A s → NoAncestorEdges A (parseReferenceRun A env hs s) := by
    intro hs
    induction hs with
    | nil => intro s h; exact h
    | cons oh rest ih =>
        intro s h
        exact ih _ (processHit_preserves_no_ancestor h oh.1 oh.2)
  exact main hits emptyRefState (fun a b hedge => by
    rcases hedge with hedge | hedge <;> simp [emptyRefState] at hedge)

theorem c5_no_ancestor_or_descendant_edges_witness :
    (4 ∈ (parseReferenceRun c6arena c6env [(4, ⟨["f.py"], 1, 0⟩)]
        emptyRefState).reference_who 2 ∨
      2 ∈ (parseReferenceRun c6arena c6env [(4, ⟨["f.py"], 1, 0⟩)]
        emptyRefState).who_reference_me 4) ∧
    (4 ∉ (c6arena 2).tree_path ∧ 2 ∉ (c6arena 4).tree_path) :=
  ⟨Or.inl (by decide),
    c5_no_ancestor_or_descendant_edges c6arena c6env [(4, ⟨["f.py"], 1, 0⟩)] 2 4
      (Or.inl (by decide))⟩

/-- Claim C6 counterexample:  The function `foo` (entity 4) references the
class `A` (entity 2) at the line where `A` is defined (`A.code_start_line =
1 =` hit line), so by the claim the edge must be marked weak.  The code also
requires the referencing entity to be of a function kind; `A` is a class, so
the appended `special_reference_type` flag is `false`. -/
theorem c6_weak_flag_counterexample :
    (processHit c6arena c6env emptyRefState 4
        ⟨["f.py"], 1, 0⟩).reference_who 2 = [4] ∧
    (processHit c6arena c6env emptyRefState 4
        ⟨["f.py"], 1, 0⟩).special_reference_type 2 = [false] ∧
    (c6arena 2).code_start_line = (⟨["f.py"], 1, 0⟩ : RefHit).line := by
  refine ⟨by decide, by decide, by decide⟩

/-- Claim C6 amended:  Whenever `processHit` adds a reference edge, the
appended weak flag is true exactly when the referencing entity is of a
function kind (`_function`, `_sub_function` or `_class_function`) *and* its
own defining line equals the line of the matched reference. -/
theorem c6_weak_flag_iff_function_kind_and_line_eq
    (A : Nat → RefItem) (env : RefEnv) (s : RefState) (now_obj : Nat)
    (hit : RefHit) (r : Nat)
    (hchanged : (processHit A env s now_obj hit).reference_who r
      ≠ s.reference_who r) :
    (processHit A env s now_obj hit).reference_who r
      = s.reference_who r ++ [now_obj] ∧
    (processHit A env s now_obj hit).special_reference_type r
      = s.special_reference_type r ++
        [decide ((((A r).item_type = DocItemType._function ∨
          (A r).item_type = DocItemType._sub_function ∨
          (A r).item_type = DocItemType._class_function)) ∧
          (A r).code_start_line = hit.line)] := by
  revert hchanged
  unfold processHit
  split
  · intro hchanged; exact absurd rfl hchanged
  · split
    · intro hchanged; exact absurd rfl hchanged
    · split
      · intro hchanged; exact absurd rfl hchanged
      · rename_i referencer_file_item _
        dsimp only []
        split
        · intro hchanged; exact absurd rfl hchanged
        · split
          · split
            · intro hchanged; exact absurd rfl hchanged
            · intro hchanged
              set rn := find_obj_with_lineno A env.fuel referencer_file_item
                hit.line with hrn
              dsimp only [] at hchanged ⊢
              by_cases hr : r = rn
              · subst hr
                rw [Function.update_same, Function.update_same]
                exact ⟨rfl, rfl⟩
              · rw [Function.update_noteq hr] at hchanged
                exact absurd rfl hchanged
          · intro hchanged; exact absurd rfl hchanged

/-- Witness for `c6_weak_flag_iff_function_kind_and_line_eq`: the class `A`
(entity 2) references the function `foo` (entity 4) at the line where `foo`
is defined; `foo` is of function kind and the lines coincide, so the
appended flag is `decide True = true`. -/
theorem c6_weak_flag_iff_function_kind_and_line_eq_witness :
    ((processHit c6arena c6env emptyRefState 2
        ⟨["g.py"], 1, 0⟩).reference_who 4 ≠ emptyRefState.reference_who 4) ∧
    (processHit c6arena c6env emptyRefState 2
        ⟨["g.py"], 1, 0⟩).reference_who 4
      = emptyRefState.reference_who 4 ++ [2] ∧
    (processHit c6arena c6env emptyRefState 2
        ⟨["g.py"], 1, 0⟩).special_reference_type 4
      = emptyRefState.special_reference_type 4 ++
        [decide ((((c6arena 4).item_type = DocItemType._function ∨
          (c6arena 4).item_type = DocItemType._sub_function ∨
          (c6arena 4).item_type = DocItemType._class_function)) ∧
          (c6arena 4).code_start_line = (⟨["g.py"], 1, 0⟩ : RefHit).line)] :=
  ⟨by decide,
    c6_weak_flag_iff_function_kind_and_line_eq c6arena c6env emptyRefState 2
      ⟨["g.py"], 1, 0⟩ 4 (by decide)⟩

/-- Claim C8 counterexample:  An occurrence of `v` in `other.py` at line 5,
column 3 is not the origin occurrence of a query made from `orig.py` at
line 5, column 3 — yet `find_all_referencer` drops it, because its exclusion
test compares only `(line, column)` and ignores the file. -/
theorem c8_origin_exclusion_counterexample :
    find_all_referencer (fun p => p) (.ok [⟨"v", "other.py", 5, 3⟩]) "v" 5 3
      = [] ∧
    findAllReferencerClaimed (fun p => p) (.ok [⟨"v", "other.py", 5, 3⟩]) "v"
        "orig.py" 5 3
      = [("other.py", 5, 3)] ∧
    ("other.py" : String) ≠ "orig.py" := by
  refine ⟨by decide, by decide, by decide⟩

/-- Claim C8 amended:  For every query, `find_all_referencer` returns
exactly the occurrences of the identifier (as `(file, line, column)`
triples) except every occurrence whose line and column equal the origin's —
in any file, not only the origin file; with `in_file_only` set the underlying
jedi search is scoped to the origin file, so `refs` then only contains
occurrences from that file. -/
theorem c8_returns_all_but_origin_position (relpath : String → String)
    (refs : List JediRef) (variable_name : String)
    (line_number column_number : Int) (f : String) (l c : Int) :
    (f, l, c) ∈ find_all_referencer relpath (.ok refs) variable_name
        line_number column_number ↔
      ∃ r ∈ refs, r.name = variable_name ∧ relpath r.module_path = f ∧
        r.line = l ∧ r.column = c ∧ ¬(l = line_number ∧ c = column_number) := by
  unfold find_all_referencer
  simp only [List.mem_map, List.mem_filter]
  constructor
  · rintro ⟨r, ⟨⟨hr, hname⟩, hpos⟩, heq⟩
    injection heq with h1 h23
    injection h23 with h2 h3
    refine ⟨r, hr, by simpa using hname, h1, h2, h3, ?_⟩
    intro hcon
    subst h2
    subst h3
    simp [hcon.1, hcon.2] at hpos
  · rintro ⟨r, hr, hname, h1, h2, h3, hpos⟩
    refine ⟨r, ⟨⟨hr, by simpa using hname⟩, ?_⟩, by rw [h1, h2, h3]⟩
    subst h2
    subst h3
    by_cases hl : r.line = line_number <;> by_cases hc : r.column = column_number <;>
      simp_all

/-- Claim C10 counterexample:  A lone top-level record spanning lines 1-3 has
no containing record, so its father is the file node with the sentinel range
`(-1, -1)`; its end line 3 is not `≤` the father's end line `-1`, refuting
the containment claim for the built tree. -/
theorem c10_containment_counterexample :
    assignedFather ⟨"f", 1, 3⟩ [⟨"f", 1, 3⟩] "a.py" = ⟨"a.py", -1, -1⟩ ∧
    ¬((⟨"f", 1, 3⟩ : HRecord).code_end_line ≤
        (assignedFather ⟨"f", 1, 3⟩ [⟨"f", 1, 3⟩] "a.py").code_end_line) := by
  refine ⟨by decide, by decide⟩

theorem pickFather_contains (item : HRecord) :
    ∀ (l : List HRecord) (acc : Option HRecord),
      (∀ pf, acc = some pf → code_contain item pf = true) →
      ∀ f, (l.foldl
        (fun potential_father other_item =>
          if code_contain item other_item then
            match potential_father with
            | none => some other_item
            | some pf =>
                if other_item.code_end_line - other_item.code_start_line <
                    pf.code_end_line - pf.code_start_line then some other_item
                else some pf
          else potential_father)
        acc) = some f → code_contain item f = true
  | [], acc, hacc, f, hf => hacc f hf
  | other :: rest, acc, hacc, f, hf => by
      rw [List.foldl_cons] at hf
      refine pickFather_contains item rest _ ?_ f hf
      intro pf hpf
      by_cases hco : code_contain item other = true
      · rw [if_pos hco] at hpf
        rcases acc with _ | pf0
        · simp at hpf
          subst hpf
          exact hco
        · by_cases hlt : other.code_end_line - other.code_start_line <
              pf0.code_end_line - pf0.code_start_line
          · simp [hlt] at hpf
            subst hpf
            exact hco
          · simp [hlt] at hpf
            subst hpf
            exact hacc pf0 rfl
      · rw [if_neg hco] at hpf
        exact hacc pf hpf

/-- Claim C10 amended:  In the tree built by `from_project_hierarchy_json`,
whenever an entity is attached to another code record (a containing record
exists), that father strictly contains it: `father.code_start_line ≤
e.code_start_line`, `e.code_end_line ≤ father.code_end_line`, and the two
ranges are not identical.  An entity with no containing record is attached
to the file node, whose sentinel lines are `-1`, where the end-line
inequality fails. -/
theorem c10_containment_for_record_fathers (item : HRecord)
    (l : List HRecord) (f : HRecord) (h : pickFather item l = some f) :
    f.code_start_line ≤ item.code_start_line ∧
    item.code_end_line ≤ f.code_end_line ∧
    ¬(f.code_end_line = item.code_end_line ∧
      f.code_start_line = item.code_start_line) := by
  have hco : code_contain item f = true :=
    pickFather_contains item l none (by simp) f h
  rw [code_contain] at hco
  by_cases h1 : f.code_end_line = item.code_end_line ∧
      f.code_start_line = item.code_start_line
  · rw [if_pos h1] at hco
    exact absurd hco (by simp)
  · rw [if_neg h1] at hco
    by_cases h2 : f.code_end_line < item.code_end_line ∨
        f.code_start_line > item.code_start_line
    · rw [if_pos h2] at hco
      exact absurd hco (by simp)
    · push_neg at h2
      exact ⟨h2.2, h2.1, h1⟩

/-- Witness for `c10_containment_for_record_fathers`: a record spanning
lines 2-3 inside a record spanning lines 1-5. -/
theorem c10_containment_for_record_fathers_witness :
    pickFather ⟨"g", 2, 3⟩ [⟨"f", 1, 5⟩] = some ⟨"f", 1, 5⟩ ∧
    ((⟨"f", 1, 5⟩ : HRecord).code_start_line ≤
        (⟨"g", 2, 3⟩ : HRecord).code_start_line ∧
      (⟨"g", 2, 3⟩ : HRecord).code_end_line ≤
        (⟨"f", 1, 5⟩ : HRecord).code_end_line ∧
      ¬((⟨"f", 1, 5⟩ : HRecord).code_end_line =
          (⟨"g", 2, 3⟩ : HRecord).code_end_line ∧
        (⟨"f", 1, 5⟩ : HRecord).code_start_line =
          (⟨"g", 2, 3⟩ : HRecord).code_start_line)) :=
  ⟨by decide,
    c10_containment_for_record_fathers ⟨"g", 2, 3⟩ [⟨"f", 1, 5⟩] ⟨"f", 1, 5⟩
      (by decide)⟩

theorem mergeOwnData_key (od nd : NodeData) :
    (mergeOwnData od nd).key = nd.key := rfl

theorem travel2Data_key (od nd : NodeData) :
    (travel2Data od nd).key = nd.key := by
  unfold travel2Data
  split
  · split <;> rfl
  · rfl

theorem mergeOwnData_newrefs (od nd : NodeData) :
    (mergeOwnData od nd).new_reference_names = nd.new_reference_names := rfl

theorem find?_replace_preserve (cs : List DTree) (k1 k : String) (nc' : DTree)
    (hkey : nc'.data.key = k1) :
    (cs.map (fun c => if c.data.key == k1 then nc' else c)).find?
        (fun c => c.data.key == k)
      = if k1 = k then (cs.find? (fun c => c.data.key == k)).map (fun _ => nc')
        else cs.find? (fun c => c.data.key == k) := by
  induction cs with
  | nil => by_cases hk : k1 = k <;> simp [hk]
  | cons c rest ih =>
      by_cases hc1 : c.data.key = k1
      · rw [List.map_cons, if_pos (by simpa using hc1)]
        by_cases hk : k1 = k
        · subst hk
          rw [List.find?_cons_of_pos _ (by simpa using hkey),
              List.find?_cons_of_pos _ (by simpa using hc1)]
          simp
        · rw [List.find?_cons_of_neg _ (by simp [hkey]; exact hk),
              List.find?_cons_of_neg _ (by simp [hc1]; exact hk), ih]
      · rw [List.map_cons, if_neg (by simpa using hc1)]
        by_cases hck : c.data.key = k
        · have hk : ¬ k1 = k := fun h => hc1 (h ▸ hck)
          rw [List.find?_cons_of_pos _ (by simpa using hck),
              List.find?_cons_of_pos _ (by simpa using hck)]
          simp [hk]
        · rw [List.find?_cons_of_neg _ (by simpa using hck),
              List.find?_cons_of_neg _ (by simpa using hck), ih]

mutual
theorem walkMerge_data (f : NodeData → NodeData → NodeData) :
    ∀ (p : List String) (o n : DTree),
      (walkMerge f p o n).1.data = f o.data n.data
  | p, .node od ocs, n => by
      rw [walkMerge, walkChildren_data f]
      rfl

theorem walkChildren_data (f : NodeData → NodeData → NodeData) :
    ∀ (p : List String) (ocs : List DTree) (n : DTree),
      (walkChildren f p ocs n).1.data = n.data
  | _, [], n => rfl
  | p, och :: rest, n => by
      rw [walkChildren]
      cases h : childAt n och.data.key with
      | some nc =>
          simp only []
          rw [walkChildren_data f]
          rfl
      | none =>
          simp only []
          rw [walkChildren_data f]
end

theorem keysNodupB_parts {o : DTree} (h : keysNodupB o = true) :
    (o.children.map (fun c => c.data.key)).Nodup ∧ keysNodupL o.children = true := by
  rcases o with ⟨d, cs⟩
  rw [keysNodupB, Bool.and_eq_true] at h
  exact ⟨by simpa [DTree.children] using h.1, by simpa [DTree.children] using h.2⟩

theorem keysNodupL_mem : ∀ {cs : List DTree}, keysNodupL cs = true →
    ∀ c ∈ cs, keysNodupB c = true
  | [], _, c, hc => by simp at hc
  | c0 :: rest, h, c, hc => by
      rw [keysNodupL, Bool.and_eq_true] at h
      rcases List.mem_cons.1 hc with rfl | hc
      · exact h.1
      · exact keysNodupL_mem h.2 c hc

theorem keysNodupB_child {o : DTree} (h : keysNodupB o = true)
    {c : DTree} (hc : c ∈ o.children) : keysNodupB c = true :=
  keysNodupL_mem (keysNodupB_parts h).2 c hc

theorem walkChildren_childAt (f : NodeData → NodeData → NodeData)
    (hf : ∀ od nd, (f od nd).key = nd.key) :
    ∀ (p : List String) (ocs : List DTree) (n : DTree) (k : String),
      (ocs.map (fun c => c.data.key)).Nodup →
      childAt (walkChildren f p ocs n).1 k
        = match ocs.find? (fun oc => oc.data.key == k) with
          | some och =>
              match childAt n k with
              | some nc =>
                  some (walkMerge f (p ++ [och.data.obj_name]) och nc).1
              | none => none
          | none => childAt n k
  | p, [], n, k, _ => by simp [walkChildren]
  | p, och :: rest, n, k, hnd => by
      have hndrest : (rest.map (fun c => c.data.key)).Nodup := by
        rw [List.map_cons] at hnd
        exact hnd.of_cons
      have hheadnot : och.data.key ∉ rest.map (fun c => c.data.key) := by
        rw [List.map_cons] at hnd
        exact (List.nodup_cons.1 hnd).1
      rw [walkChildren]
      cases h : childAt n och.data.key with
      | some nc =>
          simp only []
          have hnckey : nc.data.key = och.data.key := by
            have := List.find?_some h
            simpa using this
          have hr1key : (walkMerge f (p ++ [och.data.obj_name]) och nc).1.data.key
              = och.data.key := by
            rw [walkMerge_data, hf]
            exact hnckey
          have hrepl := find?_replace_preserve n.children och.data.key k
            (walkMerge f (p ++ [och.data.obj_name]) och nc).1 hr1key
          rw [walkChildren_childAt f hf p rest _ k hndrest]
          by_cases hk : och.data.key = k
          · subst hk
            have hrestnone :
                rest.find? (fun oc => oc.data.key == och.data.key) = none := by
              rw [List.find?_eq_none]
              intro x hx hbeq
              exact hheadnot (by
                simp only [List.mem_map]
                exact ⟨x, hx, by simpa using hbeq⟩)
            rw [hrestnone]
            rw [List.find?_cons_of_pos _ (by simp)]
            show childAt _ och.data.key = _
            rw [childAt] at h ⊢
            show (n.children.map
              (fun c => if c.data.key == och.data.key then _ else c)).find? _ = _
            rw [hrepl, if_pos rfl, h]
            simp [childAt, h]
          · rw [List.find?_cons_of_neg _ (by simpa using hk)]
            have hchn : childAt (DTree.node n.data (n.children.map
                (fun c => if c.data.key == och.data.key
                  then (walkMerge f (p ++ [och.data.obj_name]) och nc).1 else c))) k
                = childAt n k := by
              rw [childAt, childAt]
              show (n.children.map _).find? _ = _
              rw [hrepl, if_neg hk]
            rw [hchn]
      | none =>
          simp only []
          rw [walkChildren_childAt f hf p rest n k hndrest]
          by_cases hk : och.data.key = k
          · subst hk
            have hrestnone :
                rest.find? (fun oc => oc.data.key == och.data.key) = none := by
              rw [List.find?_eq_none]
              intro x hx hbeq
              exact hheadnot (by
                simp only [List.mem_map]
                exact ⟨x, hx, by simpa using hbeq⟩)
            rw [hrestnone, List.find?_cons_of_pos _ (by simp), h]
          · rw [List.find?_cons_of_neg _ (by simpa using hk)]

theorem walkMerge_childAt (f : NodeData → NodeData → NodeData)
    (hf : ∀ od nd, (f od nd).key = nd.key)
    (p : List String) (o n : DTree) (k : String)
    (hnd : keysNodupB o = true) :
    childAt (walkMerge f p o n).1 k
      = match o.children.find? (fun oc => oc.data.key == k) with
        | some och =>
            match childAt n k with
            | some nc => some (walkMerge f (p ++ [och.data.obj_name]) och nc).1
            | none => none
        | none => childAt n k := by
  rcases o with ⟨od, ocs⟩
  rw [walkMerge]
  have := walkChildren_childAt f hf p ocs (DTree.node (f od n.data) n.children) k
    (by simpa [DTree.children] using (keysNodupB_parts hnd).1)
  rw [this]
  have hsame : childAt (DTree.node (f od n.data) n.children) k = childAt n k := by
    rw [childAt, childAt]
    rfl
  rw [hsame]
  rfl

theorem walkMerge_lookup_isSome (f : NodeData → NodeData → NodeData)
    (hf : ∀ od nd, (f od nd).key = nd.key) :
    ∀ (q : List String) (p : List String) (o n : DTree),
      keysNodupB o = true →
      (lookupPath (walkMerge f p o n).1 q).isSome = (lookupPath n q).isSome
  | [], p, o, n, _ => by simp [lookupPath]
  | k :: rest, p, o, n, hnd => by
      have hca := walkMerge_childAt f hf p o n k hnd
      rw [lookupPath, lookupPath]
      cases hfind : o.children.find? (fun oc => oc.data.key == k) with
      | none =>
          rw [hfind] at hca
          simp only [] at hca
          rw [hca]
      | some och =>
          rw [hfind] at hca
          simp only [] at hca
          cases hcn : childAt n k with
          | none =>
              rw [hcn] at hca
              simp only [] at hca
              rw [hca]
          | some nc =>
              rw [hcn] at hca
              simp only [] at hca
              rw [hca]
              have hoch : keysNodupB och = true :=
                keysNodupB_child hnd (List.mem_of_find?_eq_some hfind)
              exact walkMerge_lookup_isSome f hf rest
                (p ++ [och.data.obj_name]) och nc hoch

theorem lookupPath_data_irrel (d d' : NodeData) (cs : List DTree) :
    ∀ (q : List String), q ≠ [] →
      lookupPath (DTree.node d cs) q = lookupPath (DTree.node d' cs) q
  | [], h => absurd rfl h
  | _ :: _, _ => by
      rw [lookupPath, lookupPath]
      rfl

theorem lookup_isSome_replace (f : NodeData → NodeData → NodeData)
    (hf : ∀ od nd, (f od nd).key = nd.key) (n och nc : DTree)
    (p' : List String) (h : childAt n och.data.key = some nc)
    (hoch : keysNodupB och = true) :
    ∀ (q : List String),
      (lookupPath (DTree.node n.data (n.children.map
          (fun c => if c.data.key == och.data.key
            then (walkMerge f p' och nc).1 else c))) q).isSome
        = (lookupPath n q).isSome
  | [] => by simp [lookupPath]
  | k :: rest => by
      have hr1key : (walkMerge f p' och nc).1.data.key = och.data.key := by
        rw [walkMerge_data, hf]
        have := List.find?_some h
        simpa using this
      have hrepl := find?_replace_preserve n.children och.data.key k
        (walkMerge f p' och nc).1 hr1key
      rw [lookupPath, lookupPath]
      have hcrepl : childAt (DTree.node n.data (n.children.map
          (fun c => if c.data.key == och.data.key
            then (walkMerge f p' och nc).1 else c))) k
          = if och.data.key = k
            then (childAt n k).map (fun _ => (walkMerge f p' och nc).1)
            else childAt n k := by
        rw [childAt]
        show (n.children.map _).find? _ = _
        rw [hrepl]
        rfl
      by_cases hk : och.data.key = k
      · rw [hk] at h
        rw [hcrepl, if_pos hk, h]
        show (lookupPath (walkMerge f p' och nc).1 rest).isSome
          = (lookupPath nc rest).isSome
        exact walkMerge_lookup_isSome f hf rest p' och nc hoch
      · rw [hcrepl, if_neg hk]

mutual
theorem enumRel_ne_nil :
    ∀ (names : List String) (t : DTree) (e : List String × String × DocItemType),
      e ∈ enumRel names t → e.1 ≠ []
  | names, .node d cs, e, he => by
      rw [enumRel] at he
      exact enumRelL_ne_nil names cs e he

theorem enumRelL_ne_nil :
    ∀ (names : List String) (cs : List DTree)
      (e : List String × String × DocItemType),
      e ∈ enumRelL names cs → e.1 ≠ []
  | names, [], e, he => by simp [enumRelL] at he
  | names, c :: rest, e, he => by
      rw [enumRelL] at he
      rcases List.mem_cons.1 he with rfl | he
      · simp
      · rcases List.mem_append.1 he with he | he
        · obtain ⟨e0, _, he0⟩ := List.mem_map.1 he
          rw [← he0]
          simp
        · exact enumRelL_ne_nil names rest e he
end

theorem isNone_eq_of_isSome_eq {α β : Type} {x : Option α} {y : Option β}
    (h : x.isSome = y.isSome) : x.isNone = y.isNone := by
  cases x <;> cases y <;> simp_all

mutual
theorem walkMerge_deleted (f : NodeData → NodeData → NodeData)
    (hf : ∀ od nd, (f od nd).key = nd.key) :
    ∀ (p : List String) (o n : DTree), keysNodupL o.children = true →
      (walkMerge f p o n).2
        = (enumRel p o).filterMap
            (fun e =>
              if (lookupPath n e.1).isNone ∧ (lookupPath n e.1.dropLast).isSome
              then some e.2 else none)
  | p, .node od ocs, n, hnd => by
      rcases n with ⟨nd, ncs⟩
      rw [walkMerge, enumRel,
        walkChildren_deleted f hf p ocs _ (by simpa [DTree.children] using hnd)]
      apply List.filterMap_congr
      intro e he
      have hne : e.1 ≠ [] := enumRelL_ne_nil p ocs e he
      have h1 : lookupPath (DTree.node (f od (DTree.node nd ncs).data) ncs) e.1
          = lookupPath (DTree.node nd ncs) e.1 :=
        lookupPath_data_irrel _ _ _ e.1 hne
      by_cases hd : e.1.dropLast = []
      · simp only [show (DTree.node nd ncs).children = ncs from rfl] at h1 ⊢
        rw [hd] at *
        simp only [h1]
        rfl
      · have h2 : lookupPath (DTree.node (f od (DTree.node nd ncs).data) ncs)
            e.1.dropLast = lookupPath (DTree.node nd ncs) e.1.dropLast :=
          lookupPath_data_irrel _ _ _ _ hd
        simp only [show (DTree.node nd ncs).children = ncs from rfl] at h1 h2 ⊢
        simp only [h1, h2]

theorem walkChildren_deleted (f : NodeData → NodeData → NodeData)
    (hf : ∀ od nd, (f od nd).key = nd.key) :
    ∀ (p : List String) (ocs : List DTree) (n : DTree), keysNodupL ocs = true →
      (walkChildren f p ocs n).2
        = (enumRelL p ocs).filterMap
            (fun e =>
              if (lookupPath n e.1).isNone ∧ (lookupPath n e.1.dropLast).isSome
              then some e.2 else none)
  | p, [], n, _ => by
      rw [walkChildren, enumRelL]
      rfl
  | p, och :: rest, n, hnd => by
      have hsplit : keysNodupB och = true ∧ keysNodupL rest = true := by
        rw [keysNodupL, Bool.and_eq_true] at hnd
        exact hnd
      rw [walkChildren, enumRelL]
      cases h : childAt n och.data.key with
      | some nc =>
          simp only []
          rw [List.filterMap_cons]
          have hheadlook : lookupPath n [och.data.key] = some nc := by
            rw [lookupPath, h]
            rfl
          have hheadcond :
              (if (lookupPath n [och.data.key]).isNone
                  ∧ (lookupPath n ([och.data.key] : List String).dropLast).isSome
               then some ((fullNameOf p och.data.obj_name, och.data.item_type))
               else none) = none := by
            rw [hheadlook]
            simp
          rw [hheadcond]
          simp only [List.filterMap_append]
          congr 1
          · rw [List.filterMap_map,
              walkMerge_deleted f hf (p ++ [och.data.obj_name]) och nc
                (keysNodupB_parts hsplit.1).2]
            apply List.filterMap_congr
            intro e he
            have hne : e.1 ≠ [] := enumRel_ne_nil _ och e he
            have hlk : ∀ (q : List String),
                lookupPath n (och.data.key :: q) = lookupPath nc q := by
              intro q
              rw [lookupPath, h]
            have hdl : (och.data.key :: e.1).dropLast
                = och.data.key :: e.1.dropLast :=
              List.dropLast_cons_of_ne_nil hne
            simp only [Function.comp, hdl, hlk]
          · rw [walkChildren_deleted f hf p rest _ hsplit.2]
            apply List.filterMap_congr
            intro e _
            have hs1 := lookup_isSome_replace f hf n och nc
              (p ++ [och.data.obj_name]) h hsplit.1 e.1
            have hs2 := lookup_isSome_replace f hf n och nc
              (p ++ [och.data.obj_name]) h hsplit.1 e.1.dropLast
            have hn1 := isNone_eq_of_isSome_eq hs1
            simp only [hn1, hs2]
      | none =>
          simp only []
          rw [List.filterMap_cons]
          have hheadlook : lookupPath n [och.data.key] = none := by
            rw [lookupPath, h]
          have hheadcond :
              (if (lookupPath n [och.data.key]).isNone
                  ∧ (lookupPath n ([och.data.key] : List String).dropLast).isSome
               then some ((fullNameOf p och.data.obj_name, och.data.item_type))
               else none)
              = some (fullNameOf p och.data.obj_name, och.data.item_type) := by
            rw [hheadlook]
            simp [lookupPath]
          rw [hheadcond]
          simp only [List.filterMap_append]
          have hblock : ((enumRel (p ++ [och.data.obj_name]) och).map
              (fun e => (och.data.key :: e.1, e.2))).filterMap
                (fun e =>
                  if (lookupPath n e.1).isNone
                      ∧ (lookupPath n e.1.dropLast).isSome
                  then some e.2 else none) = [] := by
            rw [List.filterMap_eq_nil_iff]
            intro e' he'
            obtain ⟨e, he, he'eq⟩ := List.mem_map.1 he'
            have hne : e.1 ≠ [] := enumRel_ne_nil _ och e he
            rw [← he'eq]
            have hdl : (och.data.key :: e.1).dropLast
                = och.data.key :: e.1.dropLast :=
              List.dropLast_cons_of_ne_nil hne
            have hlk : ∀ (q : List String),
                lookupPath n (och.data.key :: q) = none := by
              intro q
              rw [lookupPath, h]
            simp only [hdl, hlk]
            simp
          rw [hblock]
          rw [walkChildren_deleted f hf p rest n hsplit.2]
          rfl
end

/-- Claim C7 amended:  The `deleted_items_from_older_meta` list produced by
`travel` contains exactly, in traversal order, one `(full name, kind)` entry
for every old entity that is absent from the new tree while its parent is
present; entities strictly inside an already-absent subtree are skipped
(`travel` returns without recursing when `find_item` fails), so they are
never recorded. -/
theorem c7_deleted_records_maximal_absent_entities
    (old newTree : DTree) (hnd : keysNodupL old.children = true) :
    travelDeleted old newTree = deletedSpec old newTree := by
  rw [travelDeleted, deletedSpec]
  exact walkMerge_deleted mergeOwnData mergeOwnData_key [] old newTree hnd

/-- Claim C7 counterexample:  The function `a.py/f` is present in the old tree
and absent from the new tree, yet `travel` records only the subtree root
`a.py`: when `find_item` fails it appends one entry and returns without
visiting the children, so `a.py/f` appears zero times — not exactly once —
in `deleted_items_from_older_meta`. -/
theorem c7_deleted_items_counterexample :
    travelDeleted c7old c7new = [("a.py", DocItemType._file)] ∧
    (lookupPath c7old ["a.py", "f"]).isSome = true ∧
    (lookupPath c7new ["a.py", "f"]).isNone = true ∧
    ("a.py/f", DocItemType._function) ∉ travelDeleted c7old c7new := by
  refine ⟨rfl, rfl, rfl, by decide⟩

theorem c7_deleted_records_maximal_absent_entities_witness :
    keysNodupL c7old.children = true ∧
    travelDeleted c7old c7new = deletedSpec c7old c7new :=
  ⟨rfl, c7_deleted_records_maximal_absent_entities c7old c7new rfl⟩

theorem walkMerge_lookupPath (f : NodeData → NodeData → NodeData)
    (hf : ∀ od nd, (f od nd).key = nd.key) :
    ∀ (path : List String) (p : List String) (o n osub nsub : DTree),
      keysNodupB o = true →
      lookupPath o path = some osub → lookupPath n path = some nsub →
      ∃ q, lookupPath (walkMerge f p o n).1 path
          = some (walkMerge f q osub nsub).1 ∧ keysNodupB osub = true
  | [], p, o, n, osub, nsub, hnd, ho, hn => by
      rw [lookupPath] at ho hn
      injection ho with ho
      injection hn with hn
      subst ho
      subst hn
      exact ⟨p, by rw [lookupPath], hnd⟩
  | k :: rest, p, o, n, osub, nsub, hnd, ho, hn => by
      rw [lookupPath] at ho hn
      cases hoc : childAt o k with
      | none =>
          rw [hoc] at ho
          exact absurd ho (by simp)
      | some oc =>
          rw [hoc] at ho
          cases hnc : childAt n k with
          | none =>
              rw [hnc] at hn
              exact absurd hn (by simp)
          | some nc =>
              rw [hnc] at hn
              have hca := walkMerge_childAt f hf p o n k hnd
              have hoc' : o.children.find? (fun c => c.data.key == k) = some oc :=
                hoc
              rw [hoc'] at hca
              simp only [] at hca
              rw [hnc] at hca
              simp only [] at hca
              have hocnd := keysNodupB_child hnd (List.mem_of_find?_eq_some hoc')
              obtain ⟨q, hq, hqnd⟩ := walkMerge_lookupPath f hf rest
                (p ++ [oc.data.obj_name]) oc nc osub nsub hocnd ho hn
              refine ⟨q, ?_, hqnd⟩
              rw [lookupPath, hca]
              exact hq

theorem statusRuleEq (E S : Bool) (base : DocItemStatus) :
    (if (¬ E = true) ∧ base = DocItemStatus.doc_up_to_date then
       (if S = true then DocItemStatus.referencer_not_exist
        else DocItemStatus.add_new_referencer)
     else base)
    = (if (¬ E = true) ∧ base = DocItemStatus.doc_up_to_date then
         (if S = true ∧ ¬ E = true then DocItemStatus.referencer_not_exist
          else DocItemStatus.add_new_referencer)
       else base) := by
  by_cases h1 : (¬ E = true) ∧ base = DocItemStatus.doc_up_to_date
  · rw [if_pos h1, if_pos h1]
    by_cases h2 : S = true
    · rw [if_pos h2, if_pos ⟨h2, h1.1⟩]
    · rw [if_neg h2, if_neg (fun hc => h2 hc.1)]
  · rw [if_neg h1, if_neg h1]

theorem travel2Data_status (od nd : NodeData) :
    (travel2Data od nd).item_status =
      if (¬ setEqB nd.new_reference_names od.who_reference_me_name_list = true)
          ∧ nd.item_status = DocItemStatus.doc_up_to_date then
        (if setSubB nd.new_reference_names od.who_reference_me_name_list = true
         then DocItemStatus.referencer_not_exist
         else DocItemStatus.add_new_referencer)
      else nd.item_status := by
  unfold travel2Data
  by_cases h1 : (¬ setEqB nd.new_reference_names
      od.who_reference_me_name_list = true)
      ∧ nd.item_status = DocItemStatus.doc_up_to_date
  · rw [if_pos h1, if_pos h1]
    by_cases h2 : setSubB nd.new_reference_names
        od.who_reference_me_name_list = true
    · rw [if_pos h2, if_pos h2]
    · rw [if_neg h2, if_neg h2]
  · rw [if_neg h1, if_neg h1]

/-- Claim C4:  For every old entity whose structural counterpart exists in the
new tree (same root-to-node key path), `load_doc_from_older_meta` copies the
prior doc versions onto the counterpart, and the counterpart's final status
is: `code_changed` when the two `code_content` strings differ, else the old
status; and then — `parse_reference` having recomputed the referencer names
— if that carried status is `doc_up_to_date` and the new referencer-name
set differs from the old one, `referencer_not_exist` when the new set is a
strict subset of the old, and `add_new_referencer` when it is not a
subset. -/
theorem c4_status_carry_and_referencer_transitions
    (old newTree : DTree) (path : List String) (osub nsub : DTree)
    (ocode ncode : String)
    (hnd : keysNodupB old = true)
    (ho : lookupPath old path = some osub)
    (hn : lookupPath newTree path = some nsub)
    (hoc : osub.data.code_content = some ocode)
    (hnc : nsub.data.code_content = some ncode) :
    ∃ fsub, lookupPath (load_doc_from_older_meta old newTree).1 path = some fsub ∧
      fsub.data.md_content = osub.data.md_content ∧
      fsub.data.item_status =
        (if (¬ setEqB nsub.data.new_reference_names
              osub.data.who_reference_me_name_list = true)
            ∧ (if ocode ≠ ncode then DocItemStatus.code_changed
               else osub.data.item_status) = DocItemStatus.doc_up_to_date then
           if setSubB nsub.data.new_reference_names
                osub.data.who_reference_me_name_list = true
              ∧ ¬ setEqB nsub.data.new_reference_names
                osub.data.who_reference_me_name_list = true
           then DocItemStatus.referencer_not_exist
           else DocItemStatus.add_new_referencer
         else (if ocode ≠ ncode then DocItemStatus.code_changed
               else osub.data.item_status)) := by
  obtain ⟨q1, hq1, _⟩ := walkMerge_lookupPath mergeOwnData mergeOwnData_key
    path [] old newTree osub nsub hnd ho hn
  obtain ⟨q2, hq2, _⟩ := walkMerge_lookupPath travel2Data travel2Data_key
    path [] old (walkMerge mergeOwnData [] old newTree).1 osub
    (walkMerge mergeOwnData q1 osub nsub).1 hnd ho hq1
  refine ⟨(walkMerge travel2Data q2 osub
    (walkMerge mergeOwnData q1 osub nsub).1).1, hq2, ?_, ?_⟩
  · rw [walkMerge_data, walkMerge_data]
    unfold travel2Data
    split
    · split <;> rfl
    · rfl
  · rw [walkMerge_data, walkMerge_data, travel2Data_status]
    have hM : (mergeOwnData osub.data nsub.data).item_status
        = (if ocode ≠ ncode then DocItemStatus.code_changed
           else osub.data.item_status) := by
      rw [mergeOwnData]
      simp only [hoc, hnc]
    have hMrefs : (mergeOwnData osub.data nsub.data).new_reference_names
        = nsub.data.new_reference_names := rfl
    rw [hM, hMrefs]
    exact statusRuleEq _ _ _

theorem c4_status_carry_and_referencer_transitions_witness :
    (keysNodupB c4old = true ∧
      lookupPath c4old ["a.py", "f"] = some c4osub ∧
      lookupPath c4new ["a.py", "f"] = some c4nsub ∧
      c4osub.data.code_content = some "def f: 1" ∧
      c4nsub.data.code_content = some "def f: 1") ∧
    ∃ fsub,
      lookupPath (load_doc_from_older_meta c4old c4new).1 ["a.py", "f"]
        = some fsub ∧
      fsub.data.md_content = c4osub.data.md_content ∧
      fsub.data.item_status =
        (if (¬ setEqB c4nsub.data.new_reference_names
              c4osub.data.who_reference_me_name_list = true)
            ∧ (if ("def f: 1" : String) ≠ "def f: 1"
               then DocItemStatus.code_changed
               else c4osub.data.item_status) = DocItemStatus.doc_up_to_date then
           if setSubB c4nsub.data.new_reference_names
                c4osub.data.who_reference_me_name_list = true
              ∧ ¬ setEqB c4nsub.data.new_reference_names
                c4osub.data.who_reference_me_name_list = true
           then DocItemStatus.referencer_not_exist
           else DocItemStatus.add_new_referencer
         else (if ("def f: 1" : String) ≠ "def f: 1"
               then DocItemStatus.code_changed
               else c4osub.data.item_status)) :=
  ⟨⟨rfl, rfl, rfl, rfl, rfl⟩,
    c4_status_carry_and_referencer_transitions c4old c4new ["a.py", "f"]
      c4osub c4nsub "def f: 1" "def f: 1" rfl rfl rfl rfl rfl⟩

end CodDoc
